import Mathlib

attribute [local semireducible] Rat.add Rat.sub Rat.mul Rat.inv

/-!
Shallow embedding of the Barnes-Hut quadtree core of the repository
(src/quadTree2.c, src/asteriod.c, src/solar.c, src/unnamed/part_000 =
barnes_hut.h / barnes_hut.c).  C doubles are modelled as exact rationals.
The C `sqrt` is an explicit parameter `sq : ℚ → ℚ` threaded through force
evaluation, so every definition stays computable; theorems that need
properties of the real square root state them as hypotheses on `sq`.
Heap pointers to bodies are modelled by an `id` field (the index of the
body in the caller's array); pointer comparison becomes `id` comparison
and pointer dereference becomes a lookup in an explicit store.
-/

/-- One celestial body.  Union of the fields of the three C body structs
(`CelestialBody` of quadTree2.c / asteriod.c / solar.c, `Planet` of
planet.h): position, velocity, mass, display radius, the logged force
components (`fx`, `fy`; asteriod.c and solar.c), the stored acceleration
(`ax`, `ay`; planet.h), and `id`, standing in for the body's address /
index in the caller's array.  The quadtree code reads only `x`, `y`,
`mass` and the identity. -/
structure Body where
  x : ℚ
  y : ℚ
  vx : ℚ
  vy : ℚ
  mass : ℚ
  radius : ℚ
  fx : ℚ
  fy : ℚ
  ax : ℚ
  ay : ℚ
  id : ℕ
deriving Repr, DecidableEq

/-- A body with all fields zero (used only as a lookup fallback). -/
def body0 : Body := ⟨0, 0, 0, 0, 0, 0, 0, 0, 0, 0, 0⟩

instance : Inhabited Body := ⟨body0⟩

/-- Quadtree node (struct `QuadTreeNode` in all variants).  In the C
code a node has a nullable body pointer and four all-or-nothing child
pointers; `insert_body` keeps `body` and children mutually exclusive
(case 2 clears `body` right after subdividing), so the embedding folds
that invariant into the constructors: a `leaf` has no children and an
optional body, a `node` has exactly four children and no body.  The
mass-aggregation fields `total_mass`, `center_x`, `center_y` are stored
in the constructors exactly as in the struct (junk until
`calculate_center_of_mass` runs). -/
inductive QuadTree where
  | leaf (x y width height : ℚ) (body : Option Body) (total_mass center_x center_y : ℚ)
  | node (x y width height : ℚ) (nw ne sw se : QuadTree) (total_mass center_x center_y : ℚ)
deriving Repr, DecidableEq

namespace QuadTree

/-- Field accessor `node->x`. -/
def x : QuadTree → ℚ
  | .leaf x _ _ _ _ _ _ _ => x
  | .node x _ _ _ _ _ _ _ _ _ _ => x

/-- Field accessor `node->y`. -/
def y : QuadTree → ℚ
  | .leaf _ y _ _ _ _ _ _ => y
  | .node _ y _ _ _ _ _ _ _ _ _ => y

/-- Field accessor `node->width`. -/
def width : QuadTree → ℚ
  | .leaf _ _ w _ _ _ _ _ => w
  | .node _ _ w _ _ _ _ _ _ _ _ => w

/-- Field accessor `node->height`. -/
def height : QuadTree → ℚ
  | .leaf _ _ _ h _ _ _ _ => h
  | .node _ _ _ h _ _ _ _ _ _ _ => h

/-- Field accessor `node->total_mass`. -/
def total_mass : QuadTree → ℚ
  | .leaf _ _ _ _ _ tm _ _ => tm
  | .node _ _ _ _ _ _ _ _ tm _ _ => tm

/-- Field accessor `node->center_x`. -/
def center_x : QuadTree → ℚ
  | .leaf _ _ _ _ _ _ cx _ => cx
  | .node _ _ _ _ _ _ _ _ _ cx _ => cx

/-- Field accessor `node->center_y`. -/
def center_y : QuadTree → ℚ
  | .leaf _ _ _ _ _ _ _ cy => cy
  | .node _ _ _ _ _ _ _ _ _ _ cy => cy

end QuadTree

/-- `create_quadtree`: a fresh node covering the given region: body NULL,
children NULL (hence a `leaf`), mass fields zeroed. -/
def create_quadtree (x y width height : ℚ) : QuadTree :=
  .leaf x y width height none 0 0 0

/-- Membership of a point in the half-open rectangle
`[x, x+w) × [y, y+h)` — the comparison chain of `is_in_bounds`. -/
def in_rect (x y w h px py : ℚ) : Prop :=
  x ≤ px ∧ px < x + w ∧ y ≤ py ∧ py < y + h

instance (x y w h px py : ℚ) : Decidable (in_rect x y w h px py) := by
  unfold in_rect; exact inferInstance

/-- `is_in_bounds(node, body)` (identical in all variants). -/
def is_in_bounds (t : QuadTree) (b : Body) : Prop :=
  in_rect t.x t.y t.width t.height b.x b.y

instance (t : QuadTree) (b : Body) : Decidable (is_in_bounds t b) := by
  unfold is_in_bounds; exact inferInstance

/-- The four quadrant slots of a node. -/
inductive Quadrant where
  | nw | ne | sw | se
deriving Repr, DecidableEq

/-- Which quadrant `get_quadrant` selects for a point, given the parent's
origin and size: strict `<` against the midpoint, ties going south/east. -/
def quadrantOfPt (x y w h px py : ℚ) : Quadrant :=
  let mid_x := x + w / 2
  let mid_y := y + h / 2
  if py < mid_y then
    if px < mid_x then .nw else .ne
  else
    if px < mid_x then .sw else .se

/-- Quadrant selected by `get_quadrant(node, body)`. -/
def quadrantOf (t : QuadTree) (b : Body) : Quadrant :=
  quadrantOfPt t.x t.y t.width t.height b.x b.y

/-- Origin and size of a child quadrant, as laid out by `subdivide`:
nw `(x, y)`, ne `(x+w/2, y)`, sw `(x, y+h/2)`, se `(x+w/2, y+h/2)`,
all of size `w/2 × h/2`. -/
def childRect (x y w h : ℚ) : Quadrant → ℚ × ℚ × ℚ × ℚ
  | .nw => (x, y, w / 2, h / 2)
  | .ne => (x + w / 2, y, w / 2, h / 2)
  | .sw => (x, y + h / 2, w / 2, h / 2)
  | .se => (x + w / 2, y + h / 2, w / 2, h / 2)

namespace QuadTree

/-- Child slot of a node (`node->nw` …).  On a leaf (NULL children in C)
this returns the node itself; the C code never dereferences a NULL child
here and the embedding never calls it on a leaf. -/
def child : QuadTree → Quadrant → QuadTree
  | t@(.leaf ..), _ => t
  | .node _ _ _ _ nw _ _ _ _ _ _, .nw => nw
  | .node _ _ _ _ _ ne _ _ _ _ _, .ne => ne
  | .node _ _ _ _ _ _ sw _ _ _ _, .sw => sw
  | .node _ _ _ _ _ _ _ se _ _ _, .se => se

/-- Re-install an updated child: the C code mutates the child in place
through the pointer returned by `get_quadrant`; functionally the parent
is rebuilt with that slot replaced. -/
def setChild : QuadTree → Quadrant → QuadTree → QuadTree
  | t@(.leaf ..), _, _ => t
  | .node x y w h _ ne sw se tm cx cy, .nw, c => .node x y w h c ne sw se tm cx cy
  | .node x y w h nw _ sw se tm cx cy, .ne, c => .node x y w h nw c sw se tm cx cy
  | .node x y w h nw ne _ se tm cx cy, .sw, c => .node x y w h nw ne c se tm cx cy
  | .node x y w h nw ne sw _ tm cx cy, .se, c => .node x y w h nw ne sw c tm cx cy

end QuadTree

/-- `get_quadrant(node, body)`: the child node the body belongs to. -/
def get_quadrant (t : QuadTree) (b : Body) : QuadTree :=
  t.child (quadrantOf t b)

/-- `subdivide(node)`: create the four half-size children.  In C the
node keeps its (about to be nulled) body pointer; `insert_body` clears
it immediately afterwards, and the `node` constructor has no body slot,
so the two steps are fused here. -/
def subdivide : QuadTree → QuadTree
  | .leaf x y w h _ tm cx cy =>
      let half_width := w / 2
      let half_height := h / 2
      .node x y w h
        (create_quadtree x y half_width half_height)
        (create_quadtree (x + half_width) y half_width half_height)
        (create_quadtree x (y + half_height) half_width half_height)
        (create_quadtree (x + half_width) (y + half_height) half_width half_height)
        tm cx cy
  | t => t

/-- `insert_body(node, body)` (identical logic in quadTree2.c,
asteriod.c, solar.c and `bh_insert_planet` of part_000).  The C
recursion has no depth guard and genuinely diverges on coincident
bodies, so the embedding takes explicit fuel: `none` means the fuel ran
out before the C code would have returned. -/
def insert_body : ℕ → QuadTree → Body → Option QuadTree
  | 0, _, _ => none
  | fuel + 1, t, b =>
    if ¬ is_in_bounds t b then
      -- body is out of bounds: return, tree untouched
      some t
    else
      match t with
      | .leaf x y w h none tm cx cy =>
          -- case 1: empty leaf takes the body
          some (.leaf x y w h (some b) tm cx cy)
      | .leaf x y w h (some existing_body) tm cx cy =>
          -- case 2: occupied leaf: subdivide, clear the body, re-insert
          -- the existing body into its quadrant, then fall through to
          -- case 3 for the new body
          let n0 := subdivide (.leaf x y w h (some existing_body) tm cx cy)
          (insert_body fuel (n0.child (quadrantOf n0 existing_body)) existing_body).bind
            (fun c1 =>
              let n1 := n0.setChild (quadrantOf n0 existing_body) c1
              (insert_body fuel (n1.child (quadrantOf n1 b)) b).bind
                (fun c2 => some (n1.setChild (quadrantOf n1 b) c2)))
      | .node x y w h nw ne sw se tm cx cy =>
          -- case 3: internal node: insert into the matching quadrant
          let t0 : QuadTree := .node x y w h nw ne sw se tm cx cy
          (insert_body fuel (t0.child (quadrantOf t0 b)) b).bind
            (fun c => some (t0.setChild (quadrantOf t0 b) c))

/-- Bodies held in the leaves of a (sub)tree, in nw-ne-sw-se order. -/
def bodiesList : QuadTree → List Body
  | .leaf _ _ _ _ none _ _ _ => []
  | .leaf _ _ _ _ (some b) _ _ _ => [b]
  | .node _ _ _ _ nw ne sw se _ _ _ =>
      bodiesList nw ++ bodiesList ne ++ bodiesList sw ++ bodiesList se

/-- Building a tree: the per-tick loop `for i: insert_body(root, &a[i])`
of every stepper, folded over the body list with shared fuel. -/
def buildTree (fuel : ℕ) (root : QuadTree) (bs : List Body) : Option QuadTree :=
  bs.foldlM (fun t b => insert_body fuel t b) root

/-- One child's conditional contribution to the parent's accumulators in
`calculate_center_of_mass`: `(total_mass, center_x·mass sum, center_y·mass sum)`,
skipping children with non-positive `total_mass`. -/
def add_child_mass (acc : ℚ × ℚ × ℚ) (c : QuadTree) : ℚ × ℚ × ℚ :=
  if 0 < c.total_mass then
    (acc.1 + c.total_mass,
     acc.2.1 + c.center_x * c.total_mass,
     acc.2.2 + c.center_y * c.total_mass)
  else acc

/-- `calculate_center_of_mass(node)` (identical in all variants):
post-order pass filling `total_mass`, `center_x`, `center_y`. -/
def calculate_center_of_mass : QuadTree → QuadTree
  | .leaf x y w h (some b) _ _ _ =>
      .leaf x y w h (some b) b.mass b.x b.y
  | .leaf x y w h none _ _ _ =>
      .leaf x y w h none 0 (x + w / 2) (y + h / 2)
  | .node x y w h nw ne sw se _ _ _ =>
      let nw' := calculate_center_of_mass nw
      let ne' := calculate_center_of_mass ne
      let sw' := calculate_center_of_mass sw
      let se' := calculate_center_of_mass se
      let acc := add_child_mass (add_child_mass (add_child_mass (add_child_mass
        (0, 0, 0) nw') ne') sw') se'
      if 0 < acc.1 then
        .node x y w h nw' ne' sw' se' acc.1 (acc.2.1 / acc.1) (acc.2.2 / acc.1)
      else
        .node x y w h nw' ne' sw' se' acc.1 (x + w / 2) (y + h / 2)

/-- All nodes of a tree (the tree itself and, recursively, its children). -/
def allNodes : QuadTree → List QuadTree
  | t@(.leaf ..) => [t]
  | t@(.node _ _ _ _ nw ne sw se _ _ _) =>
      t :: (allNodes nw ++ allNodes ne ++ allNodes sw ++ allNodes se)

/-- `EPSILON` (1e-9 in every variant). -/
def EPSILON : ℚ := 1 / 1000000000

/-- `calculate_force_from_quadtree(body, node, theta, fx, fy)` of
quadTree2.c.  `sq` stands for C `sqrt`; `Gc` for the macro `G`.  The
accumulators `*fx, *fy` become the pair `acc`.  The C opening test
`s / distance < theta` is false under IEEE semantics when
`distance == 0` (the quotient is `+inf` or NaN), which the embedding
makes explicit with the conjunct `0 < dist`, since `ℚ` division by zero
yields `0`. -/
def calculate_force_from_quadtree (sq : ℚ → ℚ) (Gc theta : ℚ) (body : Body) :
    QuadTree → ℚ × ℚ → ℚ × ℚ
  | t, acc =>
    if t.total_mass = 0 then acc   -- empty node
    else
      match t with
      | .leaf _ _ _ _ (some lb) _ _ _ =>
          if lb ≠ body then
            -- leaf with a (different) body: exact pairwise force
            let dx := lb.x - body.x
            let dy := lb.y - body.y
            let distance_squared := dx * dx + dy * dy
            let distance := sq distance_squared
            if distance < EPSILON then acc
            else
              let force_magnitude := Gc * body.mass * lb.mass / distance_squared
              (acc.1 + force_magnitude * dx / distance,
               acc.2 + force_magnitude * dy / distance)
          else acc      -- leaf holding the target: falls through both ifs
      | .leaf _ _ _ _ none _ _ _ => acc   -- body NULL and nw NULL: nothing
      | .node _ _ W H nw ne sw se tm cx cy =>
          -- internal node (nw != NULL)
          let dx := cx - body.x
          let dy := cy - body.y
          let dist := sq (dx * dx + dy * dy)
          let s := max W H
          if 0 < dist ∧ s / dist < theta then
            if dist < EPSILON then acc
            else
              let force_magnitude := Gc * body.mass * tm / (dist * dist)
              (acc.1 + force_magnitude * dx / dist,
               acc.2 + force_magnitude * dy / dist)
          else
            let a1 := calculate_force_from_quadtree sq Gc theta body nw acc
            let a2 := calculate_force_from_quadtree sq Gc theta body ne a1
            let a3 := calculate_force_from_quadtree sq Gc theta body sw a2
            calculate_force_from_quadtree sq Gc theta body se a3

/-- The internal-node part of asteriod.c's `calculate_force_from_quadtree`
(lines 204-221), which unlike quadTree2.c is not guarded by
`node->nw != NULL`: on a leaf the four child recursions run on NULL and
return nothing. -/
def ast_internal_part (sq : ℚ → ℚ) (Gc theta : ℚ) (body : Body)
    (rec4 : ℚ × ℚ → ℚ × ℚ) (t : QuadTree) (acc : ℚ × ℚ) : ℚ × ℚ :=
  let dx := t.center_x - body.x
  let dy := t.center_y - body.y
  let dist := sq (dx * dx + dy * dy)
  let s := max t.width t.height
  if 0 < dist ∧ s / dist < theta then
    if dist < EPSILON then acc
    else
      let force := Gc * body.mass * t.total_mass / (dist * dist)
      (acc.1 + force * dx / dist, acc.2 + force * dy / dist)
  else rec4 acc

/-- `calculate_force_from_quadtree` of asteriod.c (and textually
identical in solar.c): same leaf case as quadTree2.c, but the
approximation decision is reached for any node that is not a
foreign-body leaf. -/
def calculate_force_from_quadtree_ast (sq : ℚ → ℚ) (Gc theta : ℚ) (body : Body) :
    QuadTree → ℚ × ℚ → ℚ × ℚ
  | t, acc =>
    if t.total_mass = 0 then acc
    else
      match t with
      | t@(.leaf _ _ _ _ (some lb) _ _ _) =>
          if lb ≠ body then
            let dx := lb.x - body.x
            let dy := lb.y - body.y
            let dist_sq := dx * dx + dy * dy
            let dist := sq dist_sq
            if dist < EPSILON then acc
            else
              let force := Gc * body.mass * lb.mass / dist_sq
              (acc.1 + force * dx / dist, acc.2 + force * dy / dist)
          else
            ast_internal_part sq Gc theta body (fun a => a) t acc
      | t@(.leaf _ _ _ _ none _ _ _) =>
          ast_internal_part sq Gc theta body (fun a => a) t acc
      | t@(.node _ _ _ _ nw ne sw se _ _ _) =>
          ast_internal_part sq Gc theta body
            (fun a =>
              let a1 := calculate_force_from_quadtree_ast sq Gc theta body nw a
              let a2 := calculate_force_from_quadtree_ast sq Gc theta body ne a1
              let a3 := calculate_force_from_quadtree_ast sq Gc theta body sw a2
              calculate_force_from_quadtree_ast sq Gc theta body se a3)
            t acc

/-- Ghost record of one `*fx += …; *fy += …` event during force
evaluation: which source supplied it (a leaf's body, or a whole node
approximated through its aggregate) and the computed distance used. -/
inductive Contribution where
  | ofLeaf (b : Body) (dist : ℚ)
  | ofNode (t : QuadTree) (dist : ℚ)
deriving Repr, DecidableEq

/-- Computed distance of a recorded contribution. -/
def Contribution.dist : Contribution → ℚ
  | .ofLeaf _ d => d
  | .ofNode _ d => d

/-- Instrumented copy of quadTree2.c's `calculate_force_from_quadtree`:
same control flow and arithmetic, additionally returning the list of
contributions added to the accumulators (ghost output only;
`calculate_force_traced_fst` below proves the force part agrees with
the plain function). -/
def calculate_force_traced (sq : ℚ → ℚ) (Gc theta : ℚ) (body : Body) :
    QuadTree → ℚ × ℚ → (ℚ × ℚ) × List Contribution
  | t, acc =>
    if t.total_mass = 0 then (acc, [])
    else
      match t with
      | .leaf _ _ _ _ (some lb) _ _ _ =>
          if lb ≠ body then
            let dx := lb.x - body.x
            let dy := lb.y - body.y
            let distance_squared := dx * dx + dy * dy
            let distance := sq distance_squared
            if distance < EPSILON then (acc, [])
            else
              let force_magnitude := Gc * body.mass * lb.mass / distance_squared
              ((acc.1 + force_magnitude * dx / distance,
                acc.2 + force_magnitude * dy / distance),
               [.ofLeaf lb distance])
          else (acc, [])
      | .leaf _ _ _ _ none _ _ _ => (acc, [])
      | t@(.node _ _ W H nw ne sw se tm cx cy) =>
          let dx := cx - body.x
          let dy := cy - body.y
          let dist := sq (dx * dx + dy * dy)
          let s := max W H
          if 0 < dist ∧ s / dist < theta then
            if dist < EPSILON then (acc, [])
            else
              let force_magnitude := Gc * body.mass * tm / (dist * dist)
              ((acc.1 + force_magnitude * dx / dist,
                acc.2 + force_magnitude * dy / dist),
               [.ofNode t dist])
          else
            let r1 := calculate_force_traced sq Gc theta body nw acc
            let r2 := calculate_force_traced sq Gc theta body ne r1.1
            let r3 := calculate_force_traced sq Gc theta body sw r2.1
            let r4 := calculate_force_traced sq Gc theta body se r3.1
            (r4.1, r1.2 ++ r2.2 ++ r3.2 ++ r4.2)

/-- Modelled from the spec: the direct all-pairs gravitational sum that
§8 ("Exact limit at theta→0") uses as reference semantics — sum of the
exact pairwise force over every inserted body other than the target,
with the same `EPSILON` skip rule as the tree evaluator.  No C function
in the repository computes this sum; it exists only as the spec's
comparison point. -/
def direct_all_pairs_force (sq : ℚ → ℚ) (Gc : ℚ) (body : Body) (bs : List Body) : ℚ × ℚ :=
  bs.foldl
    (fun acc other =>
      if other ≠ body then
        let dx := other.x - body.x
        let dy := other.y - body.y
        let distance_squared := dx * dx + dy * dy
        let distance := sq distance_squared
        if distance < EPSILON then acc
        else
          let force_magnitude := Gc * body.mass * other.mass / distance_squared
          (acc.1 + force_magnitude * dx / distance,
           acc.2 + force_magnitude * dy / distance)
      else acc)
    (0, 0)

/-- `update_body(body, fx, fy, dt)` of quadTree2.c: acceleration from
force, velocity from acceleration, then position from the updated
velocity. -/
def update_body (body : Body) (fx fy dt : ℚ) : Body :=
  let ax := fx / body.mass
  let ay := fy / body.mass
  let vx := body.vx + ax * dt
  let vy := body.vy + ay * dt
  { body with vx := vx, vy := vy, x := body.x + vx * dt, y := body.y + vy * dt }

/-- `update_body` of solar.c (and asteriod.c): same kinematics, also
storing the force into the body's `fx`, `fy` logging fields. -/
def update_body_solar (body : Body) (fx fy dt : ℚ) : Body :=
  let b := update_body body fx fy dt
  { b with fx := fx, fy := fy }

/-- Macro `G` of solar.c (1.0, normalized units). -/
def G_solar : ℚ := 1

/-- Macro `THETA` of solar.c (0.5). -/
def THETA_solar : ℚ := 1 / 2

/-- Macro `SIMULATION_REGION` of solar.c (50.0). -/
def SIMULATION_REGION : ℚ := 50

/-- Macro `THETA` of barnes_hut.h (0.7), used inside `bh_calculate_force`. -/
def THETA_bh : ℚ := 7 / 10

/-- `&a[i]` for every element: stamp each body's `id` with its index in
the caller's array, modelling the addresses the tree leaves point to. -/
def withIds (bs : List Body) : List Body :=
  List.zipWith (fun i b => { b with id := i }) (List.range bs.length) bs

/-- `calculate_force_from_quadtree` of solar.c, with pointer aliasing
made explicit: tree leaves hold the snapshot inserted at build time, but
the C leaf case dereferences `node->body` — whatever value the body with
that address has *now* — so the leaf's position and mass are looked up
in the live `store`, as is the target `&all_bodies[bodyId]`.  Pointer
comparison `node->body != body` is `id` comparison.  Same unguarded
internal-node part as asteriod.c. -/
def calculate_force_live (sq : ℚ → ℚ) (Gc theta : ℚ) (store : List Body) (bodyId : ℕ) :
    QuadTree → ℚ × ℚ → ℚ × ℚ
  | t, acc =>
    let body := store.getD bodyId body0
    if t.total_mass = 0 then acc
    else
      match t with
      | t@(.leaf _ _ _ _ (some lb) _ _ _) =>
          if lb.id ≠ bodyId then
            let other := store.getD lb.id body0
            let dx := other.x - body.x
            let dy := other.y - body.y
            let dist_sq := dx * dx + dy * dy
            let dist := sq dist_sq
            if dist < EPSILON then acc
            else
              let force := Gc * body.mass * other.mass / dist_sq
              (acc.1 + force * dx / dist, acc.2 + force * dy / dist)
          else
            ast_internal_part sq Gc theta body (fun a => a) t acc
      | t@(.leaf _ _ _ _ none _ _ _) =>
          ast_internal_part sq Gc theta body (fun a => a) t acc
      | t@(.node _ _ _ _ nw ne sw se _ _ _) =>
          ast_internal_part sq Gc theta body
            (fun a =>
              let a1 := calculate_force_live sq Gc theta store bodyId nw a
              let a2 := calculate_force_live sq Gc theta store bodyId ne a1
              let a3 := calculate_force_live sq Gc theta store bodyId sw a2
              calculate_force_live sq Gc theta store bodyId se a3)
            t acc

/-- `bh_calculate_force(node, planet, G, fx, fy)` of part_000
(barnes_hut.c): the quadTree2.c control flow (internal part guarded by
`node->nw != NULL`), with the opening threshold fixed to the macro
`THETA = 0.7` and, as in `calculate_force_live`, the leaf body and the
target planet dereferenced through the live `store`. -/
def bh_calculate_force_live (sq : ℚ → ℚ) (Gc : ℚ) (store : List Body) (planetId : ℕ) :
    QuadTree → ℚ × ℚ → ℚ × ℚ
  | t, acc =>
    let planet := store.getD planetId body0
    if t.total_mass = 0 then acc
    else
      match t with
      | .leaf _ _ _ _ (some lb) _ _ _ =>
          if lb.id ≠ planetId then
            let other := store.getD lb.id body0
            let dx := other.x - planet.x
            let dy := other.y - planet.y
            let distance_squared := dx * dx + dy * dy
            let distance := sq distance_squared
            if distance < EPSILON then acc
            else
              let force_magnitude := Gc * planet.mass * other.mass / distance_squared
              (acc.1 + force_magnitude * dx / distance,
               acc.2 + force_magnitude * dy / distance)
          else acc
      | .leaf _ _ _ _ none _ _ _ => acc
      | .node _ _ W H nw ne sw se tm cx cy =>
          let dx := cx - planet.x
          let dy := cy - planet.y
          let dist := sq (dx * dx + dy * dy)
          let s := max W H
          if 0 < dist ∧ s / dist < THETA_bh then
            if dist < EPSILON then acc
            else
              let force_magnitude := Gc * planet.mass * tm / (dist * dist)
              (acc.1 + force_magnitude * dx / dist,
               acc.2 + force_magnitude * dy / dist)
          else
            let a1 := bh_calculate_force_live sq Gc store planetId nw acc
            let a2 := bh_calculate_force_live sq Gc store planetId ne a1
            let a3 := bh_calculate_force_live sq Gc store planetId sw a2
            bh_calculate_force_live sq Gc store planetId se a3

/-- The force-and-update loop of solar.c's `update_simulation_barnes_hut`
(lines 347-365): for each index in turn, evaluate the force against the
tree *through the live store*, then immediately `update_body` that entry
in place.  (The copy-back into the separate `planets` / `asteroids`
arrays is bookkeeping outside the physics and is not modelled.) -/
def solar_force_update_loop (sq : ℚ → ℚ) (dt : ℚ) (t : QuadTree) (store : List Body) :
    List Body :=
  (List.range store.length).foldl
    (fun st i =>
      let f := calculate_force_live sq G_solar THETA_solar st i t (0, 0)
      st.set i (update_body_solar (st.getD i body0) f.1 f.2 dt))
    store

/-- `update_simulation_barnes_hut` of solar.c: fixed square region of
the macro `SIMULATION_REGION`, build, aggregate, then the interleaved
force/update loop.  (Trajectory sampling and the frame counter are
presentation-layer and not modelled.) -/
def update_simulation_barnes_hut_solar (sq : ℚ → ℚ) (dt : ℚ) (fuel : ℕ)
    (bodies : List Body) : Option (List Body) :=
  let all_bodies := withIds bodies
  let root := create_quadtree (-SIMULATION_REGION) (-SIMULATION_REGION)
    (2 * SIMULATION_REGION) (2 * SIMULATION_REGION)
  (buildTree fuel root all_bodies).bind (fun t0 =>
    let t := calculate_center_of_mass t0
    some (solar_force_update_loop sq dt t all_bodies))

/-- Phase 1 of part_000's `update_simulation_barnes_hut`, generalized
over the order in which planet indices are processed (the source order
is `List.range n`): each step evaluates the planet's force against the
tree through the live store and writes only that planet's `ax`, `ay`. -/
def bh_force_loop_order (sq : ℚ → ℚ) (Gc : ℚ) (t : QuadTree) (order : List ℕ)
    (store : List Body) : List Body :=
  order.foldl
    (fun st i =>
      let f := bh_calculate_force_live sq Gc st i t (0, 0)
      let p := st.getD i body0
      st.set i { p with ax := f.1 / p.mass, ay := f.2 / p.mass })
    store

/-- Phase 2 of part_000's `update_simulation_barnes_hut`: for every
planet, velocity accumulates `a·dt`, then position accumulates the
updated velocity times `dt`. -/
def bh_integrate (dt : ℚ) (store : List Body) : List Body :=
  store.map (fun p =>
    let vx := p.vx + p.ax * dt
    let vy := p.vy + p.ay * dt
    { p with vx := vx, vy := vy, x := p.x + vx * dt, y := p.y + vy * dt })

/-- The bounds computation opening part_000's
`update_simulation_barnes_hut` (lines 300-326): min/max of x and y over
all planets (seeded from `planets[0]`; the C code reads `planets[0]`
unconditionally, so the empty list is the caller's error and is modelled
with the `headD` fallback), symmetric padding of 10% of the larger span,
then a square of side `max(width, height)`.  Returns
`(min_x, min_y, max_dim)`, the root rectangle's origin and side. -/
def bh_bounds (ps : List Body) : ℚ × ℚ × ℚ :=
  let p0 := ps.headD body0
  let min_x := ps.foldl (fun m p => min m p.x) p0.x
  let max_x := ps.foldl (fun m p => max m p.x) p0.x
  let min_y := ps.foldl (fun m p => min m p.y) p0.y
  let max_y := ps.foldl (fun m p => max m p.y) p0.y
  let padding := max (max_x - min_x) (max_y - min_y) * (1 / 10)
  let min_x := min_x - padding
  let max_x := max_x + padding
  let min_y := min_y - padding
  let max_y := max_y + padding
  let width := max_x - min_x
  let height := max_y - min_y
  let max_dim := max width height
  (min_x, min_y, max_dim)

/-- `update_simulation_barnes_hut` of part_000 (barnes_hut.c): bounds,
build, aggregate, force phase over all planets, then the integration
phase.  (Trajectory sampling and the frame counter are
presentation-layer and not modelled.) -/
def update_simulation_barnes_hut_bh (sq : ℚ → ℚ) (Gc dt : ℚ) (fuel : ℕ)
    (planets : List Body) : Option (List Body) :=
  let ps := withIds planets
  let bd := bh_bounds ps
  (buildTree fuel (create_quadtree bd.1 bd.2.1 bd.2.2 bd.2.2) ps).bind (fun t0 =>
    let t := calculate_center_of_mass t0
    some (bh_integrate dt (bh_force_loop_order sq Gc t (List.range ps.length) ps)))

/-! ### Basic structural lemmas -/

namespace QuadTree

@[simp] lemma x_leaf (x y w h ob tm cx cy) : (QuadTree.leaf x y w h ob tm cx cy).x = x := rfl
@[simp] lemma y_leaf (x y w h ob tm cx cy) : (QuadTree.leaf x y w h ob tm cx cy).y = y := rfl
@[simp] lemma width_leaf (x y w h ob tm cx cy) :
    (QuadTree.leaf x y w h ob tm cx cy).width = w := rfl
@[simp] lemma height_leaf (x y w h ob tm cx cy) :
    (QuadTree.leaf x y w h ob tm cx cy).height = h := rfl
@[simp] lemma total_mass_leaf (x y w h ob tm cx cy) :
    (QuadTree.leaf x y w h ob tm cx cy).total_mass = tm := rfl
@[simp] lemma center_x_leaf (x y w h ob tm cx cy) :
    (QuadTree.leaf x y w h ob tm cx cy).center_x = cx := rfl
@[simp] lemma center_y_leaf (x y w h ob tm cx cy) :
    (QuadTree.leaf x y w h ob tm cx cy).center_y = cy := rfl

@[simp] lemma x_node (x y w h nw ne sw se tm cx cy) :
    (QuadTree.node x y w h nw ne sw se tm cx cy).x = x := rfl
@[simp] lemma y_node (x y w h nw ne sw se tm cx cy) :
    (QuadTree.node x y w h nw ne sw se tm cx cy).y = y := rfl
@[simp] lemma width_node (x y w h nw ne sw se tm cx cy) :
    (QuadTree.node x y w h nw ne sw se tm cx cy).width = w := rfl
@[simp] lemma height_node (x y w h nw ne sw se tm cx cy) :
    (QuadTree.node x y w h nw ne sw se tm cx cy).height = h := rfl
@[simp] lemma total_mass_node (x y w h nw ne sw se tm cx cy) :
    (QuadTree.node x y w h nw ne sw se tm cx cy).total_mass = tm := rfl
@[simp] lemma center_x_node (x y w h nw ne sw se tm cx cy) :
    (QuadTree.node x y w h nw ne sw se tm cx cy).center_x = cx := rfl
@[simp] lemma center_y_node (x y w h nw ne sw se tm cx cy) :
    (QuadTree.node x y w h nw ne sw se tm cx cy).center_y = cy := rfl

end QuadTree

/-- The bounds rectangle of a node, as an `(x, y, width, height)` tuple. -/
def rectOf (t : QuadTree) : ℚ × ℚ × ℚ × ℚ := (t.x, t.y, t.width, t.height)

/-- Point membership in a rectangle tuple. -/
def in_rectT (r : ℚ × ℚ × ℚ × ℚ) (px py : ℚ) : Prop :=
  in_rect r.1 r.2.1 r.2.2.1 r.2.2.2 px py

/-- Well-formedness of a tree, as maintained by root creation and
insertion: sizes are non-negative, every leaf body lies inside its
leaf's half-open bounds, and the four children of an internal node
occupy exactly the quadrants `subdivide` carves out of the parent. -/
def WF : QuadTree → Prop
  | .leaf x y w h ob _ _ _ =>
      0 ≤ w ∧ 0 ≤ h ∧ ∀ b, ob = some b → in_rect x y w h b.x b.y
  | .node x y w h nw ne sw se _ _ _ =>
      0 ≤ w ∧ 0 ≤ h ∧
      rectOf nw = childRect x y w h .nw ∧ rectOf ne = childRect x y w h .ne ∧
      rectOf sw = childRect x y w h .sw ∧ rectOf se = childRect x y w h .se ∧
      WF nw ∧ WF ne ∧ WF sw ∧ WF se

lemma WF_create (x y w h : ℚ) (hw : 0 ≤ w) (hh : 0 ≤ h) :
    WF (create_quadtree x y w h) := by
  refine ⟨hw, hh, ?_⟩
  intro b hb
  exact absurd hb (by simp [create_quadtree])

/-! ### Quadrant geometry -/

/-- A point inside a node's bounds lies inside the rectangle of the
quadrant that `get_quadrant` selects for it. -/
lemma in_rect_childRect (x y w h px py : ℚ) (hp : in_rect x y w h px py) :
    in_rectT (childRect x y w h (quadrantOfPt x y w h px py)) px py := by
  obtain ⟨h1, h2, h3, h4⟩ := hp
  unfold quadrantOfPt
  by_cases hy : py < y + h / 2 <;> by_cases hx : px < x + w / 2 <;>
    simp only [hy, hx, if_true, if_false, if_pos, if_neg, not_false_iff] <;>
    simp only [in_rectT, in_rect, childRect] <;>
    refine ⟨by linarith, by linarith, by linarith, by linarith⟩

/-- Membership in a quadrant's rectangle forces `get_quadrant` to select
exactly that quadrant: the four child rectangles are pairwise disjoint. -/
lemma quadrant_unique (x y w h px py : ℚ) (q : Quadrant)
    (hq : in_rectT (childRect x y w h q) px py) :
    quadrantOfPt x y w h px py = q := by
  cases q <;>
    obtain ⟨h1, h2, h3, h4⟩ := hq <;>
    unfold quadrantOfPt <;>
    simp only [childRect] at h1 h2 h3 h4 <;>
    by_cases hy : py < y + h / 2 <;> by_cases hx : px < x + w / 2 <;>
    simp only [hy, hx, if_true, if_false, if_pos, if_neg, not_false_iff] <;>
    first
      | rfl
      | (exact absurd hy (by intro hc; linarith))
      | (exact absurd hx (by intro hc; linarith))
      | (exact absurd h2 (by intro hc; linarith))
      | (exact absurd h4 (by intro hc; linarith))
      | (exact absurd h1 (by intro hc; linarith))
      | (exact absurd h3 (by intro hc; linarith))

/-- The bodies of a (sub)tree as a multiset (order-free view of
`bodiesList`). -/
def bodiesM : QuadTree → Multiset Body
  | .leaf _ _ _ _ none _ _ _ => 0
  | .leaf _ _ _ _ (some b) _ _ _ => {b}
  | .node _ _ _ _ nw ne sw se _ _ _ =>
      bodiesM nw + bodiesM ne + bodiesM sw + bodiesM se

lemma bodiesM_eq_bodiesList (t : QuadTree) : bodiesM t = (bodiesList t : Multiset Body) := by
  induction t with
  | leaf x y w h ob tm cx cy =>
      cases ob <;> simp [bodiesM, bodiesList]
  | node x y w h nw ne sw se tm cx cy ihnw ihne ihsw ihse =>
      simp [bodiesM, bodiesList, ihnw, ihne, ihsw, ihse]

@[simp] lemma bodiesM_create (x y w h : ℚ) : bodiesM (create_quadtree x y w h) = 0 := rfl

lemma is_in_bounds_iff (t : QuadTree) (b : Body) :
    is_in_bounds t b ↔ in_rectT (rectOf t) b.x b.y := Iff.rfl

namespace QuadTree

@[simp] lemma x_setChild (t : QuadTree) (q : Quadrant) (c : QuadTree) :
    (t.setChild q c).x = t.x := by cases t <;> cases q <;> rfl
@[simp] lemma y_setChild (t : QuadTree) (q : Quadrant) (c : QuadTree) :
    (t.setChild q c).y = t.y := by cases t <;> cases q <;> rfl
@[simp] lemma width_setChild (t : QuadTree) (q : Quadrant) (c : QuadTree) :
    (t.setChild q c).width = t.width := by cases t <;> cases q <;> rfl
@[simp] lemma height_setChild (t : QuadTree) (q : Quadrant) (c : QuadTree) :
    (t.setChild q c).height = t.height := by cases t <;> cases q <;> rfl

end QuadTree

@[simp] lemma rectOf_setChild (t : QuadTree) (q : Quadrant) (c : QuadTree) :
    rectOf (t.setChild q c) = rectOf t := by
  simp [rectOf]

lemma rectOf_subdivide_leaf (x y w h : ℚ) (ob : Option Body) (tm cx cy : ℚ) :
    rectOf (subdivide (.leaf x y w h ob tm cx cy)) = (x, y, w, h) := rfl

lemma child_subdivide_leaf (x y w h : ℚ) (ob : Option Body) (tm cx cy : ℚ) (q : Quadrant) :
    (subdivide (.leaf x y w h ob tm cx cy)).child q =
      create_quadtree (childRect x y w h q).1 (childRect x y w h q).2.1
        (childRect x y w h q).2.2.1 (childRect x y w h q).2.2.2 := by
  cases q <;> rfl

lemma WF_subdivide_leaf (x y w h : ℚ) (ob : Option Body) (tm cx cy : ℚ)
    (hw : 0 ≤ w) (hh : 0 ≤ h) :
    WF (subdivide (.leaf x y w h ob tm cx cy)) := by
  have hw2 : (0 : ℚ) ≤ w / 2 := by linarith
  have hh2 : (0 : ℚ) ≤ h / 2 := by linarith
  exact ⟨hw, hh, rfl, rfl, rfl, rfl,
    WF_create _ _ _ _ hw2 hh2, WF_create _ _ _ _ hw2 hh2,
    WF_create _ _ _ _ hw2 hh2, WF_create _ _ _ _ hw2 hh2⟩

lemma bodiesM_subdivide_leaf (x y w h : ℚ) (ob : Option Body) (tm cx cy : ℚ) :
    bodiesM (subdivide (.leaf x y w h ob tm cx cy)) = 0 := rfl

/-- Children of a well-formed internal node are well-formed and sit at
the rectangles `subdivide` assigns. -/
lemma WF_node_child (x y w h : ℚ) (nw ne sw se : QuadTree) (tm cx cy : ℚ)
    (hwf : WF (.node x y w h nw ne sw se tm cx cy)) (q : Quadrant) :
    WF ((QuadTree.node x y w h nw ne sw se tm cx cy).child q) ∧
      rectOf ((QuadTree.node x y w h nw ne sw se tm cx cy).child q) = childRect x y w h q := by
  obtain ⟨_, _, r1, r2, r3, r4, w1, w2, w3, w4⟩ := hwf
  cases q <;> exact ⟨by assumption, by assumption⟩

/-- Replacing a child of a well-formed node by a well-formed tree with
the same rectangle keeps the node well-formed. -/
lemma WF_setChild (x y w h : ℚ) (nw ne sw se : QuadTree) (tm cx cy : ℚ)
    (hwf : WF (.node x y w h nw ne sw se tm cx cy)) (q : Quadrant) (c : QuadTree)
    (hcr : rectOf c = childRect x y w h q) (hcw : WF c) :
    WF ((QuadTree.node x y w h nw ne sw se tm cx cy).setChild q c) := by
  obtain ⟨hw, hh, r1, r2, r3, r4, w1, w2, w3, w4⟩ := hwf
  cases q <;>
    exact ⟨hw, hh, by assumption, by assumption, by assumption, by assumption,
      by assumption, by assumption, by assumption, by assumption⟩

/-- Inserting a body into one child adds that body to the node's body
multiset. -/
lemma bodiesM_setChild (x y w h : ℚ) (nw ne sw se : QuadTree) (tm cx cy : ℚ)
    (q : Quadrant) (c : QuadTree) (b : Body)
    (hc : bodiesM c = {b} + bodiesM ((QuadTree.node x y w h nw ne sw se tm cx cy).child q)) :
    bodiesM ((QuadTree.node x y w h nw ne sw se tm cx cy).setChild q c) =
      {b} + bodiesM (.node x y w h nw ne sw se tm cx cy) := by
  cases q <;>
    simp only [QuadTree.setChild, QuadTree.child, bodiesM] at hc ⊢ <;>
    rw [hc] <;> abel

/-- Replacing a child by one with the same bodies leaves the node's body
multiset unchanged. -/
lemma bodiesM_setChild_eq (x y w h : ℚ) (nw ne sw se : QuadTree) (tm cx cy : ℚ)
    (q : Quadrant) (c : QuadTree)
    (hc : bodiesM c = bodiesM ((QuadTree.node x y w h nw ne sw se tm cx cy).child q)) :
    bodiesM ((QuadTree.node x y w h nw ne sw se tm cx cy).setChild q c) =
      bodiesM (.node x y w h nw ne sw se tm cx cy) := by
  cases q <;>
    simp only [QuadTree.setChild, QuadTree.child, bodiesM] at hc ⊢ <;>
    rw [hc]

/-- A tree whose root is an internal node (non-NULL children in C). -/
def QuadTree.isNode : QuadTree → Prop
  | .leaf .. => False
  | .node .. => True

@[simp] lemma isNode_subdivide_leaf (x y w h : ℚ) (ob : Option Body) (tm cx cy : ℚ) :
    (subdivide (.leaf x y w h ob tm cx cy)).isNode := trivial

@[simp] lemma isNode_setChild (t : QuadTree) (q : Quadrant) (c : QuadTree) :
    (t.setChild q c).isNode ↔ t.isNode := by
  cases t <;> cases q <;> simp [QuadTree.setChild, QuadTree.isNode]

lemma rect_components {t : QuadTree} {a b c d : ℚ} (h : rectOf t = (a, b, c, d)) :
    t.x = a ∧ t.y = b ∧ t.width = c ∧ t.height = d := by
  refine ⟨congrArg (fun r => r.1) h, congrArg (fun r => r.2.1) h,
    congrArg (fun r => r.2.2.1) h, congrArg (fun r => r.2.2.2) h⟩

lemma quadrantOf_eq_pt (t : QuadTree) (b : Body) :
    quadrantOf t b = quadrantOfPt t.x t.y t.width t.height b.x b.y := rfl

lemma WF_child_rect {t : QuadTree} (hnode : t.isNode) (hwf : WF t) (q : Quadrant) :
    WF (t.child q) ∧ rectOf (t.child q) = childRect t.x t.y t.width t.height q := by
  cases t with
  | leaf x y w h ob tm cx cy => exact hnode.elim
  | node x y w h nw ne sw se tm cx cy =>
      simpa using WF_node_child x y w h nw ne sw se tm cx cy hwf q

lemma WF_setChild_of_isNode {t : QuadTree} (hnode : t.isNode) (hwf : WF t) (q : Quadrant)
    {c : QuadTree} (hcr : rectOf c = childRect t.x t.y t.width t.height q) (hcw : WF c) :
    WF (t.setChild q c) := by
  cases t with
  | leaf x y w h ob tm cx cy => exact hnode.elim
  | node x y w h nw ne sw se tm cx cy =>
      exact WF_setChild x y w h nw ne sw se tm cx cy hwf q c (by simpa using hcr) hcw

lemma bodiesM_setChild_of_isNode {t : QuadTree} (hnode : t.isNode) (q : Quadrant)
    {c : QuadTree} {b : Body} (hc : bodiesM c = {b} + bodiesM (t.child q)) :
    bodiesM (t.setChild q c) = {b} + bodiesM t := by
  cases t with
  | leaf x y w h ob tm cx cy => exact hnode.elim
  | node x y w h nw ne sw se tm cx cy =>
      exact bodiesM_setChild x y w h nw ne sw se tm cx cy q c b hc

lemma subdivide_leaf_x (x y w h : ℚ) (ob : Option Body) (tm cx cy : ℚ) :
    (subdivide (.leaf x y w h ob tm cx cy)).x = x := rfl
lemma subdivide_leaf_y (x y w h : ℚ) (ob : Option Body) (tm cx cy : ℚ) :
    (subdivide (.leaf x y w h ob tm cx cy)).y = y := rfl
lemma subdivide_leaf_width (x y w h : ℚ) (ob : Option Body) (tm cx cy : ℚ) :
    (subdivide (.leaf x y w h ob tm cx cy)).width = w := rfl
lemma subdivide_leaf_height (x y w h : ℚ) (ob : Option Body) (tm cx cy : ℚ) :
    (subdivide (.leaf x y w h ob tm cx cy)).height = h := rfl

lemma bodiesM_child_subdivide (x y w h : ℚ) (ob : Option Body) (tm cx cy : ℚ) (q : Quadrant) :
    bodiesM ((subdivide (.leaf x y w h ob tm cx cy)).child q) = 0 := by
  cases q <;> rfl

/-- Unfolding step of `insert_body` on an empty leaf. -/
lemma insert_body_succ_leaf_none (fuel : ℕ) (x y w h tm cx cy : ℚ) (b : Body) :
    insert_body (fuel + 1) (.leaf x y w h none tm cx cy) b =
      if ¬ is_in_bounds (QuadTree.leaf x y w h none tm cx cy) b then
        some (.leaf x y w h none tm cx cy)
      else some (.leaf x y w h (some b) tm cx cy) := rfl

/-- Unfolding step of `insert_body` on an occupied leaf. -/
lemma insert_body_succ_leaf_some (fuel : ℕ) (x y w h : ℚ) (eb : Body) (tm cx cy : ℚ)
    (b : Body) :
    insert_body (fuel + 1) (.leaf x y w h (some eb) tm cx cy) b =
      if ¬ is_in_bounds (QuadTree.leaf x y w h (some eb) tm cx cy) b then
        some (.leaf x y w h (some eb) tm cx cy)
      else
        (insert_body fuel
            ((subdivide (.leaf x y w h (some eb) tm cx cy)).child
              (quadrantOf (subdivide (.leaf x y w h (some eb) tm cx cy)) eb)) eb).bind
          (fun c1 =>
            (insert_body fuel
                (((subdivide (.leaf x y w h (some eb) tm cx cy)).setChild
                    (quadrantOf (subdivide (.leaf x y w h (some eb) tm cx cy)) eb) c1).child
                  (quadrantOf ((subdivide (.leaf x y w h (some eb) tm cx cy)).setChild
                    (quadrantOf (subdivide (.leaf x y w h (some eb) tm cx cy)) eb) c1) b)) b).bind
              (fun c2 =>
                some (((subdivide (.leaf x y w h (some eb) tm cx cy)).setChild
                    (quadrantOf (subdivide (.leaf x y w h (some eb) tm cx cy)) eb) c1).setChild
                  (quadrantOf ((subdivide (.leaf x y w h (some eb) tm cx cy)).setChild
                    (quadrantOf (subdivide (.leaf x y w h (some eb) tm cx cy)) eb) c1) b) c2))) := rfl

/-- Unfolding step of `insert_body` on an internal node. -/
lemma insert_body_succ_node (fuel : ℕ) (x y w h : ℚ) (nw ne sw se : QuadTree)
    (tm cx cy : ℚ) (b : Body) :
    insert_body (fuel + 1) (.node x y w h nw ne sw se tm cx cy) b =
      if ¬ is_in_bounds (QuadTree.node x y w h nw ne sw se tm cx cy) b then
        some (.node x y w h nw ne sw se tm cx cy)
      else
        (insert_body fuel
            ((QuadTree.node x y w h nw ne sw se tm cx cy).child
              (quadrantOf (.node x y w h nw ne sw se tm cx cy) b)) b).bind
          (fun c =>
            some ((QuadTree.node x y w h nw ne sw se tm cx cy).setChild
              (quadrantOf (.node x y w h nw ne sw se tm cx cy) b) c)) := rfl

/-- Main invariant of `insert_body`: a successful insertion preserves the
node's own rectangle and well-formedness, adds exactly the inserted body
to the tree's multiset when the body is in bounds, and returns the tree
unchanged when it is not. -/
theorem insert_spec (fuel : ℕ) :
    ∀ (t : QuadTree) (b : Body) (t' : QuadTree),
      insert_body fuel t b = some t' → WF t →
      rectOf t' = rectOf t ∧ WF t' ∧
        (is_in_bounds t b → bodiesM t' = {b} + bodiesM t) ∧
        (¬ is_in_bounds t b → t' = t) := by
  induction fuel with
  | zero => intro t b t' h _; simp [insert_body] at h
  | succ fuel ih =>
    intro t b t' h hwf
    by_cases hb : is_in_bounds t b
    case neg =>
      cases t with
      | leaf x y w hh ob tm cx cy =>
          cases ob with
          | none =>
              rw [insert_body_succ_leaf_none, if_pos hb] at h
              cases h
              exact ⟨rfl, hwf, fun hc => absurd hc hb, fun _ => rfl⟩
          | some eb =>
              rw [insert_body_succ_leaf_some, if_pos hb] at h
              cases h
              exact ⟨rfl, hwf, fun hc => absurd hc hb, fun _ => rfl⟩
      | node x y w hh nw ne sw se tm cx cy =>
          rw [insert_body_succ_node, if_pos hb] at h
          cases h
          exact ⟨rfl, hwf, fun hc => absurd hc hb, fun _ => rfl⟩
    case pos =>
      cases t with
      | leaf x y w hh ob tm cx cy =>
        cases ob with
        | none =>
            rw [insert_body_succ_leaf_none, if_neg (not_not_intro hb)] at h
            cases h
            refine ⟨rfl, ⟨hwf.1, hwf.2.1, ?_⟩, fun _ => by simp [bodiesM], fun hc => absurd hb hc⟩
            intro b' hb'
            cases hb'
            exact hb
        | some eb =>
            rw [insert_body_succ_leaf_some, if_neg (not_not_intro hb)] at h
            rw [Option.bind_eq_some] at h
            obtain ⟨c1, h1, h2⟩ := h
            rw [Option.bind_eq_some] at h2
            obtain ⟨c2, h21, h22⟩ := h2
            simp only [Option.some.injEq] at h22
            subst h22
            have hw0 : 0 ≤ w := hwf.1
            have hh0 : 0 ≤ hh := hwf.2.1
            have heb : in_rect x y w hh eb.x eb.y := hwf.2.2 eb rfl
            have hnode0 : (subdivide (.leaf x y w hh (some eb) tm cx cy)).isNode :=
              isNode_subdivide_leaf x y w hh (some eb) tm cx cy
            have hwf0 : WF (subdivide (.leaf x y w hh (some eb) tm cx cy)) :=
              WF_subdivide_leaf x y w hh (some eb) tm cx cy hw0 hh0
            have hch1 := WF_child_rect hnode0 hwf0
              (quadrantOf (subdivide (.leaf x y w hh (some eb) tm cx cy)) eb)
            have hin1 : is_in_bounds ((subdivide (.leaf x y w hh (some eb) tm cx cy)).child
                (quadrantOf (subdivide (.leaf x y w hh (some eb) tm cx cy)) eb)) eb := by
              rw [is_in_bounds_iff, hch1.2]
              exact in_rect_childRect x y w hh eb.x eb.y heb
            obtain ⟨hrc1, hwc1, hbc1, _⟩ := ih _ eb c1 h1 hch1.1
            have hbc1' : bodiesM c1 = {eb} := by
              rw [hbc1 hin1, bodiesM_child_subdivide]
              simp
            have hnode1 : ((subdivide (.leaf x y w hh (some eb) tm cx cy)).setChild
                (quadrantOf (subdivide (.leaf x y w hh (some eb) tm cx cy)) eb) c1).isNode := by
              rw [isNode_setChild]; exact hnode0
            have hwf1 : WF ((subdivide (.leaf x y w hh (some eb) tm cx cy)).setChild
                (quadrantOf (subdivide (.leaf x y w hh (some eb) tm cx cy)) eb) c1) := by
              refine WF_setChild_of_isNode hnode0 hwf0 _ ?_ hwc1
              rw [hrc1, hch1.2]
            have hbodies1 : bodiesM ((subdivide (.leaf x y w hh (some eb) tm cx cy)).setChild
                (quadrantOf (subdivide (.leaf x y w hh (some eb) tm cx cy)) eb) c1) = {eb} := by
              have hstep := @bodiesM_setChild_of_isNode
                (subdivide (.leaf x y w hh (some eb) tm cx cy)) hnode0
                (quadrantOf (subdivide (.leaf x y w hh (some eb) tm cx cy)) eb) c1 eb
                (by rw [hbc1', bodiesM_child_subdivide]; simp)
              rw [hstep, bodiesM_subdivide_leaf]
              simp
            have hrect1 : rectOf ((subdivide (.leaf x y w hh (some eb) tm cx cy)).setChild
                (quadrantOf (subdivide (.leaf x y w hh (some eb) tm cx cy)) eb) c1) = (x, y, w, hh) := by
              rw [rectOf_setChild, rectOf_subdivide_leaf]
            obtain ⟨hx1, hy1, hw1, hh1⟩ := rect_components hrect1
            have hch2 := WF_child_rect hnode1 hwf1
              (quadrantOf ((subdivide (.leaf x y w hh (some eb) tm cx cy)).setChild
                (quadrantOf (subdivide (.leaf x y w hh (some eb) tm cx cy)) eb) c1) b)
            have hqn1 : quadrantOf ((subdivide (.leaf x y w hh (some eb) tm cx cy)).setChild
                (quadrantOf (subdivide (.leaf x y w hh (some eb) tm cx cy)) eb) c1) b =
                quadrantOfPt x y w hh b.x b.y := by
              rw [quadrantOf_eq_pt, hx1, hy1, hw1, hh1]
            have hin2 : is_in_bounds (((subdivide (.leaf x y w hh (some eb) tm cx cy)).setChild
                (quadrantOf (subdivide (.leaf x y w hh (some eb) tm cx cy)) eb) c1).child
                (quadrantOf ((subdivide (.leaf x y w hh (some eb) tm cx cy)).setChild
                  (quadrantOf (subdivide (.leaf x y w hh (some eb) tm cx cy)) eb) c1) b)) b := by
              rw [is_in_bounds_iff, hch2.2, hqn1, hx1, hy1, hw1, hh1]
              exact in_rect_childRect x y w hh b.x b.y hb
            obtain ⟨hrc2, hwc2, hbc2, _⟩ := ih _ b c2 h21 hch2.1
            refine ⟨?_, ?_, fun _ => ?_, fun hc => absurd hb hc⟩
            · rw [rectOf_setChild, hrect1]
              rfl
            · refine WF_setChild_of_isNode hnode1 hwf1 _ ?_ hwc2
              rw [hrc2, hch2.2]
            · have hstep := @bodiesM_setChild_of_isNode
                ((subdivide (.leaf x y w hh (some eb) tm cx cy)).setChild
                  (quadrantOf (subdivide (.leaf x y w hh (some eb) tm cx cy)) eb) c1) hnode1
                (quadrantOf ((subdivide (.leaf x y w hh (some eb) tm cx cy)).setChild
                  (quadrantOf (subdivide (.leaf x y w hh (some eb) tm cx cy)) eb) c1) b)
                c2 b (hbc2 hin2)
              rw [hstep, hbodies1]
              rfl
      | node x y w hh nw ne sw se tm cx cy =>
          rw [insert_body_succ_node, if_neg (not_not_intro hb)] at h
          rw [Option.bind_eq_some] at h
          obtain ⟨c, h1, h2⟩ := h
          simp only [Option.some.injEq] at h2
          subst h2
          have hnode : (QuadTree.node x y w hh nw ne sw se tm cx cy).isNode := trivial
          have hch := WF_child_rect hnode hwf
            (quadrantOf (.node x y w hh nw ne sw se tm cx cy) b)
          have hin : is_in_bounds ((QuadTree.node x y w hh nw ne sw se tm cx cy).child
              (quadrantOf (.node x y w hh nw ne sw se tm cx cy) b)) b := by
            rw [is_in_bounds_iff, hch.2]
            exact in_rect_childRect x y w hh b.x b.y hb
          obtain ⟨hrc, hwc, hbc, _⟩ := ih _ b c h1 hch.1
          refine ⟨by rw [rectOf_setChild], ?_, fun _ => ?_, fun hc => absurd hb hc⟩
          · refine WF_setChild_of_isNode hnode hwf _ ?_ hwc
            rw [hrc, hch.2]
          · exact bodiesM_setChild_of_isNode hnode _ (hbc hin)

lemma child_setChild_same {t : QuadTree} (hnode : t.isNode) (q : Quadrant) (c : QuadTree) :
    (t.setChild q c).child q = c := by
  cases t with
  | leaf => exact hnode.elim
  | node => cases q <;> rfl

lemma child_setChild_other {t : QuadTree} (q q' : Quadrant) (c : QuadTree) (hq : q' ≠ q) :
    (t.setChild q c).child q' = t.child q' := by
  cases t with
  | leaf => rfl
  | node => cases q <;> cases q' <;> first | rfl | exact absurd rfl hq

/-- More fuel never changes a successful insertion. -/
lemma insert_mono (fuel : ℕ) :
    ∀ (t : QuadTree) (b : Body) (t' : QuadTree),
      insert_body fuel t b = some t' → insert_body (fuel + 1) t b = some t' := by
  induction fuel with
  | zero => intro t b t' h; simp [insert_body] at h
  | succ fuel ih =>
    intro t b t' h
    by_cases hb : is_in_bounds t b
    case neg =>
      cases t with
      | leaf x y w hh ob tm cx cy =>
          cases ob with
          | none =>
              rw [insert_body_succ_leaf_none, if_pos hb] at h
              rw [insert_body_succ_leaf_none, if_pos hb]
              exact h
          | some eb =>
              rw [insert_body_succ_leaf_some, if_pos hb] at h
              rw [insert_body_succ_leaf_some, if_pos hb]
              exact h
      | node x y w hh nw ne sw se tm cx cy =>
          rw [insert_body_succ_node, if_pos hb] at h
          rw [insert_body_succ_node, if_pos hb]
          exact h
    case pos =>
      cases t with
      | leaf x y w hh ob tm cx cy =>
          cases ob with
          | none =>
              rw [insert_body_succ_leaf_none, if_neg (not_not_intro hb)] at h
              rw [insert_body_succ_leaf_none, if_neg (not_not_intro hb)]
              exact h
          | some eb =>
              rw [insert_body_succ_leaf_some, if_neg (not_not_intro hb)] at h
              rw [insert_body_succ_leaf_some, if_neg (not_not_intro hb)]
              rw [Option.bind_eq_some] at h
              obtain ⟨c1, h1, h2⟩ := h
              rw [Option.bind_eq_some] at h2
              obtain ⟨c2, h21, h22⟩ := h2
              rw [Option.bind_eq_some]
              refine ⟨c1, ih _ _ _ h1, ?_⟩
              rw [Option.bind_eq_some]
              exact ⟨c2, ih _ _ _ h21, h22⟩
      | node x y w hh nw ne sw se tm cx cy =>
          rw [insert_body_succ_node, if_neg (not_not_intro hb)] at h
          rw [insert_body_succ_node, if_neg (not_not_intro hb)]
          rw [Option.bind_eq_some] at h
          obtain ⟨c, h1, h2⟩ := h
          rw [Option.bind_eq_some]
          exact ⟨c, ih _ _ _ h1, h2⟩

lemma insert_le {f g : ℕ} (hfg : f ≤ g) {t : QuadTree} {b : Body} {t' : QuadTree}
    (h : insert_body f t b = some t') : insert_body g t b = some t' := by
  induction g with
  | zero =>
      have hf0 : f = 0 := Nat.le_zero.mp hfg
      subst hf0
      exact h
  | succ g ihg =>
      rcases Nat.lt_or_ge f (g + 1) with hlt | hge
      · exact insert_mono g t b t' (ihg (Nat.lt_succ_iff.mp hlt))
      · have : f = g + 1 := Nat.le_antisymm hfg hge
        subst this
        exact h

@[simp] lemma buildTree_nil (fuel : ℕ) (root : QuadTree) :
    buildTree fuel root [] = some root := rfl

lemma buildTree_cons (fuel : ℕ) (root : QuadTree) (b : Body) (bs : List Body) :
    buildTree fuel root (b :: bs) =
      (insert_body fuel root b).bind (fun t1 => buildTree fuel t1 bs) := by
  simp [buildTree, List.foldlM_cons]

lemma buildTree_le {f g : ℕ} (hfg : f ≤ g) :
    ∀ {root t : QuadTree} {bs : List Body},
      buildTree f root bs = some t → buildTree g root bs = some t := by
  intro root t bs
  induction bs generalizing root with
  | nil => simp
  | cons b bs ihbs =>
      intro h
      rw [buildTree_cons, Option.bind_eq_some] at h
      obtain ⟨t1, h1, h2⟩ := h
      rw [buildTree_cons, Option.bind_eq_some]
      exact ⟨t1, insert_le hfg h1, ihbs h2⟩

/-- Tree construction: a successful build over in-bounds bodies yields a
well-formed tree over the same rectangle holding exactly the inserted
bodies (in addition to whatever the initial tree held). -/
theorem buildTree_spec (fuel : ℕ) :
    ∀ (bs : List Body) (root t : QuadTree),
      buildTree fuel root bs = some t → WF root →
      (∀ b ∈ bs, in_rectT (rectOf root) b.x b.y) →
      rectOf t = rectOf root ∧ WF t ∧ bodiesM t = (bs : Multiset Body) + bodiesM root := by
  intro bs
  induction bs with
  | nil =>
      intro root t h hwf _
      cases h
      simp [hwf]
  | cons b bs ihbs =>
      intro root t h hwf hin
      rw [buildTree_cons, Option.bind_eq_some] at h
      obtain ⟨t1, h1, h2⟩ := h
      obtain ⟨hr1, hw1, hbm1, _⟩ := insert_spec fuel root b t1 h1 hwf
      have hb1 : is_in_bounds root b := hin b (by simp)
      obtain ⟨hr, hw, hbm⟩ := ihbs t1 t h2 hw1 (by
        intro b' hb'
        rw [hr1]
        exact hin b' (by simp [hb']))
      refine ⟨hr.trans hr1, hw, ?_⟩
      rw [hbm, hbm1 hb1]
      rw [show ((b :: bs : List Body) : Multiset Body) = {b} + (bs : Multiset Body) by
        rw [← Multiset.cons_coe, ← Multiset.singleton_add]]
      abel

/-- Position of a body (the only data insertion's control flow reads). -/
def posOf (b : Body) : ℚ × ℚ := (b.x, b.y)

lemma quadrantOf_subdivide (x y w h : ℚ) (ob : Option Body) (tm cx cy : ℚ) (b : Body) :
    quadrantOf (subdivide (.leaf x y w h ob tm cx cy)) b = quadrantOfPt x y w h b.x b.y := rfl

lemma quadrantOf_setChild_subdivide (x y w h : ℚ) (ob : Option Body) (tm cx cy : ℚ)
    (q : Quadrant) (c : QuadTree) (b : Body) :
    quadrantOf ((subdivide (.leaf x y w h ob tm cx cy)).setChild q c) b =
      quadrantOfPt x y w h b.x b.y := by
  rw [quadrantOf_eq_pt, QuadTree.x_setChild, QuadTree.y_setChild, QuadTree.width_setChild,
    QuadTree.height_setChild, subdivide_leaf_x, subdivide_leaf_y, subdivide_leaf_width,
    subdivide_leaf_height]

lemma childRect_width (x y w h : ℚ) (q : Quadrant) :
    (childRect x y w h q).2.2.1 = w / 2 := by cases q <;> rfl

lemma childRect_height (x y w h : ℚ) (q : Quadrant) :
    (childRect x y w h q).2.2.2 = h / 2 := by cases q <;> rfl

lemma abs_sub_lt_of_in_rect {x w a b : ℚ} (ha1 : x ≤ a) (ha2 : a < x + w)
    (hb1 : x ≤ b) (hb2 : b < x + w) : |a - b| < w := by
  rw [abs_lt]
  constructor <;> linarith

/-- There is always a power of two clearing any ratio: the separation
depth for two distinct coordinates is finite. -/
lemma exists_pow_le (w g : ℚ) (hg : 0 < g) : ∃ k : ℕ, w ≤ g * 2 ^ k := by
  obtain ⟨k, hk⟩ := pow_unbounded_of_one_lt (w / g) (by norm_num : (1 : ℚ) < 2)
  exact ⟨k, by rw [div_lt_iff hg] at hk; linarith⟩

/-- The collision chain: inserting a body into a leaf already holding a
body at a different position terminates once the fuel covers the number
of halvings needed to separate the two coordinates. -/
lemma insert_collision_terminates :
    ∀ (k : ℕ) (x y w h : ℚ) (eb b : Body) (tm cx cy : ℚ),
      0 ≤ w → 0 ≤ h →
      in_rect x y w h eb.x eb.y → in_rect x y w h b.x b.y →
      ((¬ eb.x = b.x ∧ w ≤ |eb.x - b.x| * 2 ^ k) ∨
        (¬ eb.y = b.y ∧ h ≤ |eb.y - b.y| * 2 ^ k)) →
      ∃ t', insert_body (k + 2) (.leaf x y w h (some eb) tm cx cy) b = some t' := by
  intro k
  induction k with
  | zero =>
      intro x y w h eb b tm cx cy hw0 hh0 heb hbb hsep
      exfalso
      rcases hsep with ⟨hne, hle⟩ | ⟨hne, hle⟩
      · have : |eb.x - b.x| < w := abs_sub_lt_of_in_rect heb.1 heb.2.1 hbb.1 hbb.2.1
        rw [pow_zero, mul_one] at hle
        linarith
      · have : |eb.y - b.y| < h :=
          abs_sub_lt_of_in_rect heb.2.2.1 heb.2.2.2 hbb.2.2.1 hbb.2.2.2
        rw [pow_zero, mul_one] at hle
        linarith
  | succ k ihk =>
      intro x y w h eb b tm cx cy hw0 hh0 heb hbb hsep
      have hbInB : is_in_bounds (QuadTree.leaf x y w h (some eb) tm cx cy) b := hbb
      have hebC := in_rect_childRect x y w h eb.x eb.y heb
      have hbbC := in_rect_childRect x y w h b.x b.y hbb
      -- the existing body drops into its (fresh, empty) quadrant in one step
      have e1 : insert_body (k + 1 + 1)
          ((subdivide (.leaf x y w h (some eb) tm cx cy)).child
            (quadrantOf (subdivide (.leaf x y w h (some eb) tm cx cy)) eb)) eb =
          some (.leaf (childRect x y w h (quadrantOfPt x y w h eb.x eb.y)).1
            (childRect x y w h (quadrantOfPt x y w h eb.x eb.y)).2.1
            (childRect x y w h (quadrantOfPt x y w h eb.x eb.y)).2.2.1
            (childRect x y w h (quadrantOfPt x y w h eb.x eb.y)).2.2.2
            (some eb) 0 0 0) := by
        have hin1 : is_in_bounds (QuadTree.leaf
            (childRect x y w h (quadrantOfPt x y w h eb.x eb.y)).1
            (childRect x y w h (quadrantOfPt x y w h eb.x eb.y)).2.1
            (childRect x y w h (quadrantOfPt x y w h eb.x eb.y)).2.2.1
            (childRect x y w h (quadrantOfPt x y w h eb.x eb.y)).2.2.2 none 0 0 0) eb := hebC
        rw [quadrantOf_subdivide, child_subdivide_leaf]
        rw [show ∀ (a b c d : ℚ), create_quadtree a b c d = .leaf a b c d none 0 0 0
          from fun _ _ _ _ => rfl]
        rw [insert_body_succ_leaf_none, if_neg (not_not_intro hin1)]
      -- the second insertion: either a separate empty quadrant, or the
      -- same (halved) collision one level deeper
      have e2 : ∃ t2, insert_body (k + 1 + 1)
          (((subdivide (.leaf x y w h (some eb) tm cx cy)).setChild
              (quadrantOf (subdivide (.leaf x y w h (some eb) tm cx cy)) eb)
              (.leaf (childRect x y w h (quadrantOfPt x y w h eb.x eb.y)).1
                (childRect x y w h (quadrantOfPt x y w h eb.x eb.y)).2.1
                (childRect x y w h (quadrantOfPt x y w h eb.x eb.y)).2.2.1
                (childRect x y w h (quadrantOfPt x y w h eb.x eb.y)).2.2.2
                (some eb) 0 0 0)).child
            (quadrantOfPt x y w h b.x b.y)) b = some t2 := by
        by_cases hq : quadrantOfPt x y w h b.x b.y = quadrantOfPt x y w h eb.x eb.y
        · -- same quadrant: recurse via the induction hypothesis
          rw [quadrantOf_subdivide, hq,
            child_setChild_same (isNode_subdivide_leaf x y w h (some eb) tm cx cy)]
          have hsep' : (¬ eb.x = b.x ∧
                (childRect x y w h (quadrantOfPt x y w h eb.x eb.y)).2.2.1 ≤
                  |eb.x - b.x| * 2 ^ k) ∨
              (¬ eb.y = b.y ∧
                (childRect x y w h (quadrantOfPt x y w h eb.x eb.y)).2.2.2 ≤
                  |eb.y - b.y| * 2 ^ k) := by
            rw [childRect_width, childRect_height]
            rcases hsep with ⟨hne, hle⟩ | ⟨hne, hle⟩
            · left
              refine ⟨hne, ?_⟩
              rw [pow_succ] at hle
              linarith
            · right
              refine ⟨hne, ?_⟩
              rw [pow_succ] at hle
              linarith
          have hw2 : 0 ≤ (childRect x y w h (quadrantOfPt x y w h eb.x eb.y)).2.2.1 := by
            rw [childRect_width]; linarith
          have hh2 : 0 ≤ (childRect x y w h (quadrantOfPt x y w h eb.x eb.y)).2.2.2 := by
            rw [childRect_height]; linarith
          have hbbC' := hbbC
          rw [hq] at hbbC'
          exact ihk _ _ _ _ eb b 0 0 0 hw2 hh2 hebC hbbC' hsep'
        · -- different quadrants: a fresh empty leaf takes the body
          rw [quadrantOf_subdivide, child_setChild_other _ _ _ hq, child_subdivide_leaf]
          rw [show ∀ (a b c d : ℚ), create_quadtree a b c d = .leaf a b c d none 0 0 0
            from fun _ _ _ _ => rfl]
          have hin2 : is_in_bounds (QuadTree.leaf
              (childRect x y w h (quadrantOfPt x y w h b.x b.y)).1
              (childRect x y w h (quadrantOfPt x y w h b.x b.y)).2.1
              (childRect x y w h (quadrantOfPt x y w h b.x b.y)).2.2.1
              (childRect x y w h (quadrantOfPt x y w h b.x b.y)).2.2.2 none 0 0 0) b := hbbC
          rw [insert_body_succ_leaf_none, if_neg (not_not_intro hin2)]
          exact ⟨_, rfl⟩
      obtain ⟨t2, ht2⟩ := e2
      simp only [quadrantOf_subdivide] at ht2
      refine Exists.intro
        (((subdivide (.leaf x y w h (some eb) tm cx cy)).setChild
            (quadrantOfPt x y w h eb.x eb.y)
            (.leaf (childRect x y w h (quadrantOfPt x y w h eb.x eb.y)).1
              (childRect x y w h (quadrantOfPt x y w h eb.x eb.y)).2.1
              (childRect x y w h (quadrantOfPt x y w h eb.x eb.y)).2.2.1
              (childRect x y w h (quadrantOfPt x y w h eb.x eb.y)).2.2.2
              (some eb) 0 0 0)).setChild (quadrantOfPt x y w h b.x b.y) t2) ?_
      rw [show k + 1 + 2 = (k + 1 + 1) + 1 from rfl]
      rw [insert_body_succ_leaf_some, if_neg (not_not_intro hbInB)]
      simp only [e1, Option.some_bind]
      simp only [quadrantOf_setChild_subdivide, quadrantOf_subdivide]
      rw [ht2]
      simp only [Option.some_bind]

lemma bodiesM_child_le {t : QuadTree} (hnode : t.isNode) (q : Quadrant) :
    bodiesM (t.child q) ≤ bodiesM t := by
  cases t with
  | leaf => exact hnode.elim
  | node x y w h nw ne sw se tm cx cy =>
      cases q with
      | nw =>
          simp only [QuadTree.child, bodiesM]
          exact le_trans (Multiset.le_add_right _ _)
            (le_trans (Multiset.le_add_right _ _) (Multiset.le_add_right _ _))
      | ne =>
          simp only [QuadTree.child, bodiesM]
          exact le_trans (Multiset.le_add_left _ _)
            (le_trans (Multiset.le_add_right _ _) (Multiset.le_add_right _ _))
      | sw =>
          simp only [QuadTree.child, bodiesM]
          exact le_trans (Multiset.le_add_left _ _) (Multiset.le_add_right _ _)
      | se =>
          simp only [QuadTree.child, bodiesM]
          exact Multiset.le_add_left _ _

/-- Insertion of a body whose position differs from every body already in
a well-formed tree terminates with enough fuel. -/
lemma insert_terminates :
    ∀ (t : QuadTree) (b : Body), WF t → posOf b ∉ (bodiesM t).map posOf →
      ∃ f t', insert_body f t b = some t' := by
  intro t
  induction t with
  | leaf x y w h ob tm cx cy =>
      intro b hwf hpos
      by_cases hb : is_in_bounds (QuadTree.leaf x y w h ob tm cx cy) b
      case neg =>
        cases ob with
        | none => exact ⟨0 + 1, _, by rw [insert_body_succ_leaf_none, if_pos hb]⟩
        | some eb => exact ⟨0 + 1, _, by rw [insert_body_succ_leaf_some, if_pos hb]⟩
      case pos =>
        cases ob with
        | none => exact ⟨0 + 1, _, by rw [insert_body_succ_leaf_none, if_neg (not_not_intro hb)]⟩
        | some eb =>
            have heb : in_rect x y w h eb.x eb.y := hwf.2.2 eb rfl
            have hpos' : posOf b ≠ posOf eb := by
              intro hc
              exact hpos (by simp [bodiesM, hc])
            have hxy : ¬ eb.x = b.x ∨ ¬ eb.y = b.y := by
              by_contra hc
              push_neg at hc
              exact hpos' (by simp [posOf, hc.1, hc.2])
            have hsep : ∃ k : ℕ,
                (¬ eb.x = b.x ∧ w ≤ |eb.x - b.x| * 2 ^ k) ∨
                  (¬ eb.y = b.y ∧ h ≤ |eb.y - b.y| * 2 ^ k) := by
              rcases hxy with hx | hy
              · obtain ⟨k, hk⟩ := exists_pow_le w |eb.x - b.x|
                  (abs_pos.mpr (sub_ne_zero.mpr hx))
                exact ⟨k, Or.inl ⟨hx, hk⟩⟩
              · obtain ⟨k, hk⟩ := exists_pow_le h |eb.y - b.y|
                  (abs_pos.mpr (sub_ne_zero.mpr hy))
                exact ⟨k, Or.inr ⟨hy, hk⟩⟩
            obtain ⟨k, hk⟩ := hsep
            obtain ⟨t', ht'⟩ := insert_collision_terminates k x y w h eb b tm cx cy
              hwf.1 hwf.2.1 heb hb hk
            exact ⟨k + 2, t', ht'⟩
  | node x y w h nw ne sw se tm cx cy ihnw ihne ihsw ihse =>
      intro b hwf hpos
      by_cases hb : is_in_bounds (QuadTree.node x y w h nw ne sw se tm cx cy) b
      case neg => exact ⟨0 + 1, _, by rw [insert_body_succ_node, if_pos hb]⟩
      case pos =>
        have hch := @WF_child_rect (.node x y w h nw ne sw se tm cx cy) trivial hwf
          (quadrantOf (.node x y w h nw ne sw se tm cx cy) b)
        have hposc : posOf b ∉ (bodiesM ((QuadTree.node x y w h nw ne sw se tm cx cy).child
            (quadrantOf (.node x y w h nw ne sw se tm cx cy) b))).map posOf := by
          intro hc
          exact hpos (Multiset.mem_of_le
            (Multiset.map_le_map
              (@bodiesM_child_le (.node x y w h nw ne sw se tm cx cy) trivial _)) hc)
        have hex : ∃ f c, insert_body f ((QuadTree.node x y w h nw ne sw se tm cx cy).child
            (quadrantOf (.node x y w h nw ne sw se tm cx cy) b)) b = some c := by
          rcases hq : quadrantOf (.node x y w h nw ne sw se tm cx cy) b with _ | _ | _ | _ <;>
            rw [hq] at hch hposc <;>
            [exact ihnw b hch.1 hposc; exact ihne b hch.1 hposc;
             exact ihsw b hch.1 hposc; exact ihse b hch.1 hposc]
        obtain ⟨f, c, hfc⟩ := hex
        exact ⟨f + 1, _, by
          rw [insert_body_succ_node, if_neg (not_not_intro hb), hfc, Option.some_bind]⟩

/-- Building over a list of bodies with pairwise distinct positions (all
distinct from anything already in the tree) terminates with enough fuel. -/
lemma buildTree_terminates :
    ∀ (bs : List Body) (root : QuadTree), WF root →
      bs.Pairwise (fun a b => posOf a ≠ posOf b) →
      (∀ b ∈ bs, posOf b ∉ (bodiesM root).map posOf) →
      ∃ fuel t, buildTree fuel root bs = some t := by
  intro bs
  induction bs with
  | nil => intro root _ _ _; exact ⟨0, root, rfl⟩
  | cons b bs ih =>
      intro root hwf hpair hpos
      obtain ⟨f1, t1, h1⟩ := insert_terminates root b hwf (hpos b (by simp))
      obtain ⟨hr1, hw1, hbm1, hnb1⟩ := insert_spec f1 root b t1 h1 hwf
      rw [List.pairwise_cons] at hpair
      have hposs : ∀ b' ∈ bs, posOf b' ∉ (bodiesM t1).map posOf := by
        intro b' hb' hmem
        by_cases hbnd : is_in_bounds root b
        · rw [hbm1 hbnd] at hmem
          rw [Multiset.map_add, Multiset.mem_add] at hmem
          rcases hmem with hmem | hmem
          · simp only [Multiset.map_singleton, Multiset.mem_singleton] at hmem
            exact hpair.1 b' hb' hmem.symm
          · exact hpos b' (by simp [hb']) hmem
        · rw [hnb1 hbnd] at hmem
          exact hpos b' (by simp [hb']) hmem
      obtain ⟨f2, t, h2⟩ := ih t1 hw1 hpair.2 hposs
      refine ⟨max f1 f2, t, ?_⟩
      rw [buildTree_cons, insert_le (le_max_left f1 f2) h1, Option.some_bind]
      exact buildTree_le (le_max_right f1 f2) h2

/-- Two bodies at numerically identical coordinates: the insertion
recursion subdivides forever — it fails for every amount of fuel. -/
lemma insert_coincident_diverges :
    ∀ (fuel : ℕ) (x y w h : ℚ) (eb b : Body) (tm cx cy : ℚ),
      eb.x = b.x → eb.y = b.y →
      is_in_bounds (QuadTree.leaf x y w h (some eb) tm cx cy) b →
      insert_body fuel (.leaf x y w h (some eb) tm cx cy) b = none := by
  intro fuel
  induction fuel with
  | zero => intros; rfl
  | succ fuel ih =>
      intro x y w h eb b tm cx cy hx hy hb
      rw [insert_body_succ_leaf_some, if_neg (not_not_intro hb)]
      cases fuel with
      | zero => simp [insert_body]
      | succ fuel2 =>
          have hbr : in_rect x y w h b.x b.y := hb
          have hebr : in_rect x y w h eb.x eb.y := by rw [hx, hy]; exact hbr
          have hebC := in_rect_childRect x y w h eb.x eb.y hebr
          have e1 : insert_body (fuel2 + 1)
              ((subdivide (.leaf x y w h (some eb) tm cx cy)).child
                (quadrantOf (subdivide (.leaf x y w h (some eb) tm cx cy)) eb)) eb =
              some (.leaf (childRect x y w h (quadrantOfPt x y w h eb.x eb.y)).1
                (childRect x y w h (quadrantOfPt x y w h eb.x eb.y)).2.1
                (childRect x y w h (quadrantOfPt x y w h eb.x eb.y)).2.2.1
                (childRect x y w h (quadrantOfPt x y w h eb.x eb.y)).2.2.2
                (some eb) 0 0 0) := by
            have hin1 : is_in_bounds (QuadTree.leaf
                (childRect x y w h (quadrantOfPt x y w h eb.x eb.y)).1
                (childRect x y w h (quadrantOfPt x y w h eb.x eb.y)).2.1
                (childRect x y w h (quadrantOfPt x y w h eb.x eb.y)).2.2.1
                (childRect x y w h (quadrantOfPt x y w h eb.x eb.y)).2.2.2 none 0 0 0) eb := hebC
            rw [quadrantOf_subdivide, child_subdivide_leaf]
            rw [show ∀ (a b c d : ℚ), create_quadtree a b c d = .leaf a b c d none 0 0 0
              from fun _ _ _ _ => rfl]
            rw [insert_body_succ_leaf_none, if_neg (not_not_intro hin1)]
          simp only [e1, Option.some_bind]
          simp only [quadrantOf_setChild_subdivide, quadrantOf_subdivide]
          have hqeq : quadrantOfPt x y w h b.x b.y = quadrantOfPt x y w h eb.x eb.y := by
            rw [hx, hy]
          rw [hqeq, child_setChild_same (isNode_subdivide_leaf x y w h (some eb) tm cx cy)]
          have hbC : is_in_bounds (QuadTree.leaf
              (childRect x y w h (quadrantOfPt x y w h eb.x eb.y)).1
              (childRect x y w h (quadrantOfPt x y w h eb.x eb.y)).2.1
              (childRect x y w h (quadrantOfPt x y w h eb.x eb.y)).2.2.1
              (childRect x y w h (quadrantOfPt x y w h eb.x eb.y)).2.2.2
              (some eb) 0 0 0) b := by
            have := in_rect_childRect x y w h b.x b.y hbr
            rw [hqeq] at this
            exact this
          rw [ih _ _ _ _ eb b 0 0 0 hx hy hbC]
          rfl

/-! ### Mass aggregation -/

/-- Total mass of the bodies in a subtree (the value aggregation is
supposed to store). -/
def massSum (t : QuadTree) : ℚ := ((bodiesM t).map Body.mass).sum

lemma massSum_node (x y w h : ℚ) (nw ne sw se : QuadTree) (tm cx cy : ℚ) :
    massSum (.node x y w h nw ne sw se tm cx cy) =
      massSum nw + massSum ne + massSum sw + massSum se := by
  simp [massSum, bodiesM]

lemma massSum_nonneg (t : QuadTree) (hm : ∀ b ∈ bodiesM t, 0 ≤ b.mass) : 0 ≤ massSum t := by
  refine Multiset.sum_nonneg ?_
  intro m hmem
  rw [Multiset.mem_map] at hmem
  obtain ⟨b, hb, rfl⟩ := hmem
  exact hm b hb

/-- Aggregation touches only the mass fields: rectangle and bodies are
unchanged, and children stay in place (aggregated). -/
lemma ccm_struct : ∀ t : QuadTree,
    rectOf (calculate_center_of_mass t) = rectOf t ∧
      bodiesM (calculate_center_of_mass t) = bodiesM t := by
  intro t
  induction t with
  | leaf x y w h ob tm cx cy =>
      cases ob <;> simp [calculate_center_of_mass, rectOf, bodiesM]
  | node x y w h nw ne sw se tm cx cy ihnw ihne ihsw ihse =>
      simp only [calculate_center_of_mass]
      split <;>
        simp [rectOf, bodiesM, ihnw.2, ihne.2, ihsw.2, ihse.2]

lemma WF_ccm : ∀ t : QuadTree, WF t → WF (calculate_center_of_mass t) := by
  intro t
  induction t with
  | leaf x y w h ob tm cx cy =>
      intro hwf
      cases ob <;> exact hwf
  | node x y w h nw ne sw se tm cx cy ihnw ihne ihsw ihse =>
      intro hwf
      obtain ⟨hw, hh, r1, r2, r3, r4, w1, w2, w3, w4⟩ := hwf
      simp only [calculate_center_of_mass]
      split <;>
        exact ⟨hw, hh, (ccm_struct nw).1.trans r1, (ccm_struct ne).1.trans r2,
          (ccm_struct sw).1.trans r3, (ccm_struct se).1.trans r4,
          ihnw w1, ihne w2, ihsw w3, ihse w4⟩

lemma add_child_mass_fst (acc : ℚ × ℚ × ℚ) (c : QuadTree) (h : 0 ≤ c.total_mass) :
    (add_child_mass acc c).1 = acc.1 + c.total_mass := by
  unfold add_child_mass
  by_cases h0 : 0 < c.total_mass
  · simp [h0]
  · have : c.total_mass = 0 := le_antisymm (not_lt.mp h0) h
    simp [h0, this]

/-- After aggregation, every node's stored `total_mass` is the sum of the
masses of the bodies in its subtree (assuming non-negative masses: the
`> 0` guards then skip only zero contributions). -/
lemma total_mass_agg : ∀ t : QuadTree, (∀ b ∈ bodiesM t, 0 ≤ b.mass) →
    (calculate_center_of_mass t).total_mass = massSum t := by
  intro t
  induction t with
  | leaf x y w h ob tm cx cy =>
      intro hm
      cases ob <;> simp [calculate_center_of_mass, massSum, bodiesM]
  | node x y w h nw ne sw se tm cx cy ihnw ihne ihsw ihse =>
      intro hm
      have hmnw : ∀ b ∈ bodiesM nw, 0 ≤ b.mass := fun b hb => hm b (by simp [bodiesM, hb])
      have hmne : ∀ b ∈ bodiesM ne, 0 ≤ b.mass := fun b hb => hm b (by simp [bodiesM, hb])
      have hmsw : ∀ b ∈ bodiesM sw, 0 ≤ b.mass := fun b hb => hm b (by simp [bodiesM, hb])
      have hmse : ∀ b ∈ bodiesM se, 0 ≤ b.mass := fun b hb => hm b (by simp [bodiesM, hb])
      have tnw := ihnw hmnw
      have tne := ihne hmne
      have tsw := ihsw hmsw
      have tse := ihse hmse
      have snw := massSum_nonneg nw hmnw
      have sne := massSum_nonneg ne hmne
      have ssw := massSum_nonneg sw hmsw
      have sse := massSum_nonneg se hmse
      have hacc : (add_child_mass (add_child_mass (add_child_mass (add_child_mass ((0 : ℚ), (0 : ℚ), (0 : ℚ))
          (calculate_center_of_mass nw)) (calculate_center_of_mass ne))
          (calculate_center_of_mass sw)) (calculate_center_of_mass se)).1 =
          massSum nw + massSum ne + massSum sw + massSum se := by
        rw [add_child_mass_fst _ _ (by rw [tse]; exact sse),
          add_child_mass_fst _ _ (by rw [tsw]; exact ssw),
          add_child_mass_fst _ _ (by rw [tne]; exact sne),
          add_child_mass_fst _ _ (by rw [tnw]; exact snw)]
        rw [tnw, tne, tsw, tse]
        ring
      simp only [calculate_center_of_mass]
      split <;>
        simp only [QuadTree.total_mass_node] <;>
        rw [hacc, massSum_node]

lemma in_rect_of_childRect (x y w h px py : ℚ) (q : Quadrant)
    (hq : in_rectT (childRect x y w h q) px py) (hw : 0 ≤ w) (hh : 0 ≤ h) :
    in_rect x y w h px py := by
  cases q <;>
    obtain ⟨h1, h2, h3, h4⟩ := hq <;>
    simp only [childRect] at h1 h2 h3 h4 <;>
    exact ⟨by linarith, by linarith, by linarith, by linarith⟩

/-- Every body of a well-formed tree lies inside the tree's rectangle. -/
lemma body_in_rect_of_mem : ∀ (t : QuadTree) (b : Body), WF t → b ∈ bodiesM t →
    in_rect t.x t.y t.width t.height b.x b.y := by
  intro t
  induction t with
  | leaf x y w h ob tm cx cy =>
      intro b hwf hmem
      cases ob with
      | none => simp [bodiesM] at hmem
      | some eb =>
          simp only [bodiesM, Multiset.mem_singleton] at hmem
          subst hmem
          exact hwf.2.2 b rfl
  | node x y w h nw ne sw se tm cx cy ihnw ihne ihsw ihse =>
      intro b hwf hmem
      obtain ⟨hw, hh, r1, r2, r3, r4, w1, w2, w3, w4⟩ := hwf
      simp only [bodiesM, Multiset.mem_add] at hmem
      rcases hmem with ((hmem | hmem) | hmem) | hmem
      · have := ihnw b w1 hmem
        obtain ⟨e1, e2, e3, e4⟩ := rect_components r1
        rw [e1, e2, e3, e4] at this
        exact in_rect_of_childRect x y w h b.x b.y .nw this hw hh
      · have := ihne b w2 hmem
        obtain ⟨e1, e2, e3, e4⟩ := rect_components r2
        rw [e1, e2, e3, e4] at this
        exact in_rect_of_childRect x y w h b.x b.y .ne this hw hh
      · have := ihsw b w3 hmem
        obtain ⟨e1, e2, e3, e4⟩ := rect_components r3
        rw [e1, e2, e3, e4] at this
        exact in_rect_of_childRect x y w h b.x b.y .sw this hw hh
      · have := ihse b w4 hmem
        obtain ⟨e1, e2, e3, e4⟩ := rect_components r4
        rw [e1, e2, e3, e4] at this
        exact in_rect_of_childRect x y w h b.x b.y .se this hw hh

/-- Invariant carried through the four `add_child_mass` steps: the
accumulated weight is non-negative and the weighted coordinate sums stay
inside the (scaled) parent rectangle, strictly on the high side once any
weight has been accumulated. -/
def accInRect (x y w h : ℚ) (acc : ℚ × ℚ × ℚ) : Prop :=
  0 ≤ acc.1 ∧
  x * acc.1 ≤ acc.2.1 ∧ acc.2.1 ≤ (x + w) * acc.1 ∧ (0 < acc.1 → acc.2.1 < (x + w) * acc.1) ∧
  y * acc.1 ≤ acc.2.2 ∧ acc.2.2 ≤ (y + h) * acc.1 ∧ (0 < acc.1 → acc.2.2 < (y + h) * acc.1)

lemma accInRect_zero (x y w h : ℚ) : accInRect x y w h (0, 0, 0) := by
  refine ⟨le_refl 0, ?_, ?_, ?_, ?_, ?_, ?_⟩ <;> simp

lemma accInRect_step (x y w h : ℚ) (acc : ℚ × ℚ × ℚ) (c : QuadTree)
    (hacc : accInRect x y w h acc)
    (hc : 0 < c.total_mass → in_rect x y w h c.center_x c.center_y) :
    accInRect x y w h (add_child_mass acc c) := by
  unfold add_child_mass
  by_cases h0 : 0 < c.total_mass
  · obtain ⟨ha, hx1, hx2, hx3, hy1, hy2, hy3⟩ := hacc
    obtain ⟨c1, c2, c3, c4⟩ := hc h0
    rw [if_pos h0]
    refine ⟨by positivity, ?_, ?_, fun _ => ?_, ?_, ?_, fun _ => ?_⟩ <;>
      simp only <;>
      nlinarith [mul_le_mul_of_nonneg_right c1 h0.le,
        mul_lt_mul_of_pos_right c2 h0,
        mul_le_mul_of_nonneg_right c3 h0.le,
        mul_lt_mul_of_pos_right c4 h0]
  · rw [if_neg h0]
    exact hacc

/-- After aggregation, the stored center of mass of any node with
positive total mass lies inside the node's rectangle. -/
lemma com_in_rect : ∀ t : QuadTree, WF t → (∀ b ∈ bodiesM t, 0 ≤ b.mass) →
    0 < (calculate_center_of_mass t).total_mass →
    in_rect t.x t.y t.width t.height (calculate_center_of_mass t).center_x
      (calculate_center_of_mass t).center_y := by
  intro t
  induction t with
  | leaf x y w h ob tm cx cy =>
      intro hwf hm hpos
      cases ob with
      | none => simp [calculate_center_of_mass] at hpos
      | some eb => exact hwf.2.2 eb rfl
  | node x y w h nw ne sw se tm cx cy ihnw ihne ihsw ihse =>
      intro hwf hm hpos
      obtain ⟨hw, hh, r1, r2, r3, r4, w1, w2, w3, w4⟩ := hwf
      have hmnw : ∀ b ∈ bodiesM nw, 0 ≤ b.mass := fun b hb => hm b (by simp [bodiesM, hb])
      have hmne : ∀ b ∈ bodiesM ne, 0 ≤ b.mass := fun b hb => hm b (by simp [bodiesM, hb])
      have hmsw : ∀ b ∈ bodiesM sw, 0 ≤ b.mass := fun b hb => hm b (by simp [bodiesM, hb])
      have hmse : ∀ b ∈ bodiesM se, 0 ≤ b.mass := fun b hb => hm b (by simp [bodiesM, hb])
      -- each aggregated child's center of mass lies in the parent rectangle
      have hcnw : 0 < (calculate_center_of_mass nw).total_mass →
          in_rect x y w h (calculate_center_of_mass nw).center_x
            (calculate_center_of_mass nw).center_y := by
        intro hp
        have := ihnw w1 hmnw hp
        obtain ⟨e1, e2, e3, e4⟩ := rect_components r1
        rw [e1, e2, e3, e4] at this
        exact in_rect_of_childRect x y w h _ _ .nw this hw hh
      have hcne : 0 < (calculate_center_of_mass ne).total_mass →
          in_rect x y w h (calculate_center_of_mass ne).center_x
            (calculate_center_of_mass ne).center_y := by
        intro hp
        have := ihne w2 hmne hp
        obtain ⟨e1, e2, e3, e4⟩ := rect_components r2
        rw [e1, e2, e3, e4] at this
        exact in_rect_of_childRect x y w h _ _ .ne this hw hh
      have hcsw : 0 < (calculate_center_of_mass sw).total_mass →
          in_rect x y w h (calculate_center_of_mass sw).center_x
            (calculate_center_of_mass sw).center_y := by
        intro hp
        have := ihsw w3 hmsw hp
        obtain ⟨e1, e2, e3, e4⟩ := rect_components r3
        rw [e1, e2, e3, e4] at this
        exact in_rect_of_childRect x y w h _ _ .sw this hw hh
      have hcse : 0 < (calculate_center_of_mass se).total_mass →
          in_rect x y w h (calculate_center_of_mass se).center_x
            (calculate_center_of_mass se).center_y := by
        intro hp
        have := ihse w4 hmse hp
        obtain ⟨e1, e2, e3, e4⟩ := rect_components r4
        rw [e1, e2, e3, e4] at this
        exact in_rect_of_childRect x y w h _ _ .se this hw hh
      have hacc : accInRect x y w h
          (add_child_mass (add_child_mass (add_child_mass (add_child_mass ((0 : ℚ), (0 : ℚ), (0 : ℚ))
            (calculate_center_of_mass nw)) (calculate_center_of_mass ne))
            (calculate_center_of_mass sw)) (calculate_center_of_mass se)) :=
        accInRect_step x y w h _ _
          (accInRect_step x y w h _ _
            (accInRect_step x y w h _ _
              (accInRect_step x y w h _ _ (accInRect_zero x y w h) hcnw) hcne) hcsw) hcse
      revert hpos
      simp only [calculate_center_of_mass]
      split
      case isTrue hlt =>
        intro _
        obtain ⟨ha, hx1, hx2, hx3, hy1, hy2, hy3⟩ := hacc
        simp only [QuadTree.center_x_node, QuadTree.center_y_node, QuadTree.x_node,
          QuadTree.y_node, QuadTree.width_node, QuadTree.height_node]
        refine ⟨?_, ?_, ?_, ?_⟩
        · rw [le_div_iff hlt]
          linarith
        · rw [div_lt_iff hlt]
          linarith [hx3 hlt]
        · rw [le_div_iff hlt]
          linarith
        · rw [div_lt_iff hlt]
          linarith [hy3 hlt]
      case isFalse hlt =>
        intro hpos
        simp only [QuadTree.total_mass_node] at hpos
        exact absurd hpos hlt

/-! ### Force evaluation: theta = 0 equivalence (asteriod.c variant) -/

/-- One pairwise term of the reference all-pairs sum: zero for the
target itself, zero when the computed distance falls under `EPSILON`,
the exact pairwise force otherwise. -/
def pair_contrib (sq : ℚ → ℚ) (Gc : ℚ) (body other : Body) : ℚ × ℚ :=
  if other ≠ body then
    let dx := other.x - body.x
    let dy := other.y - body.y
    let dist_sq := dx * dx + dy * dy
    let dist := sq dist_sq
    if dist < EPSILON then (0, 0)
    else (Gc * body.mass * other.mass / dist_sq * dx / dist,
          Gc * body.mass * other.mass / dist_sq * dy / dist)
  else (0, 0)

lemma pair_contrib_self (sq : ℚ → ℚ) (Gc : ℚ) (body : Body) :
    pair_contrib sq Gc body body = 0 := by
  simp [pair_contrib, Prod.mk_zero_zero]

lemma pair_contrib_zero_mass (sq : ℚ → ℚ) (Gc : ℚ) (body other : Body)
    (hm : other.mass = 0) : pair_contrib sq Gc body other = 0 := by
  simp [pair_contrib, hm, Prod.mk_zero_zero]

lemma direct_step (sq : ℚ → ℚ) (Gc : ℚ) (body other : Body) (acc : ℚ × ℚ) :
    (if other ≠ body then
        let dx := other.x - body.x
        let dy := other.y - body.y
        let distance_squared := dx * dx + dy * dy
        let distance := sq distance_squared
        if distance < EPSILON then acc
        else
          let force_magnitude := Gc * body.mass * other.mass / distance_squared
          (acc.1 + force_magnitude * dx / distance,
           acc.2 + force_magnitude * dy / distance)
      else acc) = acc + pair_contrib sq Gc body other := by
  by_cases h1 : other ≠ body
  case pos =>
    by_cases h2 : sq ((other.x - body.x) * (other.x - body.x) +
        (other.y - body.y) * (other.y - body.y)) < EPSILON
    · simp [pair_contrib, h1, h2, Prod.mk_zero_zero]
    · simp [pair_contrib, h1, h2, Prod.ext_iff]
  case neg => simp [pair_contrib, h1, Prod.mk_zero_zero]

/-- The reference fold is the sum of the pairwise terms. -/
lemma direct_eq_sum (sq : ℚ → ℚ) (Gc : ℚ) (body : Body) (bs : List Body) :
    direct_all_pairs_force sq Gc body bs = (bs.map (pair_contrib sq Gc body)).sum := by
  have key : ∀ (l : List Body) (acc : ℚ × ℚ),
      l.foldl
        (fun acc other =>
          if other ≠ body then
            let dx := other.x - body.x
            let dy := other.y - body.y
            let distance_squared := dx * dx + dy * dy
            let distance := sq distance_squared
            if distance < EPSILON then acc
            else
              let force_magnitude := Gc * body.mass * other.mass / distance_squared
              (acc.1 + force_magnitude * dx / distance,
               acc.2 + force_magnitude * dy / distance)
          else acc) acc = acc + (l.map (pair_contrib sq Gc body)).sum := by
    intro l
    induction l with
    | nil => intro acc; simp
    | cons o l ihl =>
        intro acc
        rw [List.foldl_cons, ihl, direct_step, List.map_cons, List.sum_cons]
        rw [add_assoc]
  unfold direct_all_pairs_force
  rw [key]
  simp [Prod.mk_zero_zero]

lemma sum_map_pair_contrib_add (sq : ℚ → ℚ) (Gc : ℚ) (body : Body) (s t : Multiset Body) :
    ((s + t).map (pair_contrib sq Gc body)).sum =
      (s.map (pair_contrib sq Gc body)).sum + (t.map (pair_contrib sq Gc body)).sum := by
  rw [Multiset.map_add, Multiset.sum_add]

lemma mass_eq_zero_of_sum_eq_zero (t : QuadTree) (hm : ∀ b ∈ bodiesM t, 0 ≤ b.mass)
    (hs : massSum t = 0) : ∀ b ∈ bodiesM t, b.mass = 0 := by
  intro b hb
  by_contra hne
  have hpos : 0 < b.mass := lt_of_le_of_ne (hm b hb) (Ne.symm hne)
  have hle : b.mass ≤ massSum t := by
    unfold massSum
    have : b.mass ∈ (bodiesM t).map Body.mass := Multiset.mem_map_of_mem Body.mass hb
    exact Multiset.single_le_sum (by
      intro v hv
      rw [Multiset.mem_map] at hv
      obtain ⟨b', hb', rfl⟩ := hv
      exact hm b' hb') _ this
  linarith

lemma sum_pair_contrib_zero (sq : ℚ → ℚ) (Gc : ℚ) (body : Body) (M : Multiset Body)
    (hz : ∀ b ∈ M, b.mass = 0) : (M.map (pair_contrib sq Gc body)).sum = 0 := by
  induction M using Multiset.induction_on with
  | empty => simp
  | cons b s ih =>
      rw [Multiset.map_cons, Multiset.sum_cons,
        pair_contrib_zero_mass sq Gc body b (hz b (Multiset.mem_cons_self b s)),
        ih (fun b' hb' => hz b' (Multiset.mem_cons_of_mem hb'))]
      simp

/-- The internal-node part never takes its approximation branch when the
opening threshold is non-positive: the computed ratio is non-negative
whenever its guard `0 < dist` holds. -/
lemma ast_internal_part_theta_nonpos (sq : ℚ → ℚ) (Gc theta : ℚ) (body : Body)
    (rec4 : ℚ × ℚ → ℚ × ℚ) (t : QuadTree) (acc : ℚ × ℚ)
    (htheta : theta ≤ 0) (hw : 0 ≤ t.width) (hh : 0 ≤ t.height) :
    ast_internal_part sq Gc theta body rec4 t acc = rec4 acc := by
  unfold ast_internal_part
  rw [if_neg]
  rintro ⟨h1, h2⟩
  have hs : 0 ≤ max t.width t.height := le_trans hw (le_max_left _ _)
  have : 0 ≤ max t.width t.height /
      sq ((t.center_x - body.x) * (t.center_x - body.x) +
        (t.center_y - body.y) * (t.center_y - body.y)) := div_nonneg hs h1.le
  linarith

lemma cfa_step_leaf_none (sq : ℚ → ℚ) (Gc theta : ℚ) (body : Body)
    (x y w h tm cx cy : ℚ) (acc : ℚ × ℚ) :
    calculate_force_from_quadtree_ast sq Gc theta body (.leaf x y w h none tm cx cy) acc =
      if tm = 0 then acc
      else ast_internal_part sq Gc theta body (fun a => a)
        (.leaf x y w h none tm cx cy) acc := rfl

lemma cfa_step_leaf_some (sq : ℚ → ℚ) (Gc theta : ℚ) (body : Body)
    (x y w h : ℚ) (lb : Body) (tm cx cy : ℚ) (acc : ℚ × ℚ) :
    calculate_force_from_quadtree_ast sq Gc theta body (.leaf x y w h (some lb) tm cx cy) acc =
      if tm = 0 then acc
      else
        if lb ≠ body then
          let dx := lb.x - body.x
          let dy := lb.y - body.y
          let dist_sq := dx * dx + dy * dy
          let dist := sq dist_sq
          if dist < EPSILON then acc
          else
            let force := Gc * body.mass * lb.mass / dist_sq
            (acc.1 + force * dx / dist, acc.2 + force * dy / dist)
        else
          ast_internal_part sq Gc theta body (fun a => a)
            (.leaf x y w h (some lb) tm cx cy) acc := rfl

lemma cfa_step_node (sq : ℚ → ℚ) (Gc theta : ℚ) (body : Body)
    (x y w h : ℚ) (nw ne sw se : QuadTree) (tm cx cy : ℚ) (acc : ℚ × ℚ) :
    calculate_force_from_quadtree_ast sq Gc theta body (.node x y w h nw ne sw se tm cx cy) acc =
      if tm = 0 then acc
      else
        ast_internal_part sq Gc theta body
          (fun a =>
            calculate_force_from_quadtree_ast sq Gc theta body se
              (calculate_force_from_quadtree_ast sq Gc theta body sw
                (calculate_force_from_quadtree_ast sq Gc theta body ne
                  (calculate_force_from_quadtree_ast sq Gc theta body nw a))))
          (.node x y w h nw ne sw se tm cx cy) acc := rfl
/-- The first component of the four-fold child accumulation equals the
sum of the children's subtree masses (non-negative masses). -/
lemma acc4_fst (nw ne sw se : QuadTree)
    (hmnw : ∀ b ∈ bodiesM nw, 0 ≤ b.mass) (hmne : ∀ b ∈ bodiesM ne, 0 ≤ b.mass)
    (hmsw : ∀ b ∈ bodiesM sw, 0 ≤ b.mass) (hmse : ∀ b ∈ bodiesM se, 0 ≤ b.mass) :
    (add_child_mass (add_child_mass (add_child_mass (add_child_mass ((0 : ℚ), (0 : ℚ), (0 : ℚ))
        (calculate_center_of_mass nw)) (calculate_center_of_mass ne))
        (calculate_center_of_mass sw)) (calculate_center_of_mass se)).1 =
      massSum nw + massSum ne + massSum sw + massSum se := by
  rw [add_child_mass_fst _ _ (by rw [total_mass_agg se hmse]; exact massSum_nonneg se hmse),
    add_child_mass_fst _ _ (by rw [total_mass_agg sw hmsw]; exact massSum_nonneg sw hmsw),
    add_child_mass_fst _ _ (by rw [total_mass_agg ne hmne]; exact massSum_nonneg ne hmne),
    add_child_mass_fst _ _ (by rw [total_mass_agg nw hmnw]; exact massSum_nonneg nw hmnw)]
  rw [total_mass_agg nw hmnw, total_mass_agg ne hmne, total_mass_agg sw hmsw,
    total_mass_agg se hmse]
  ring

/-- With a non-positive opening threshold the asteriod.c evaluator never
approximates: on an aggregated well-formed tree it accumulates exactly
the pairwise term of every body in the tree. -/
lemma cfa_theta_nonpos_eq (sq : ℚ → ℚ) (Gc theta : ℚ) (body : Body)
    (htheta : theta ≤ 0) :
    ∀ t : QuadTree, WF t → (∀ b ∈ bodiesM t, 0 ≤ b.mass) →
      ∀ acc : ℚ × ℚ,
        calculate_force_from_quadtree_ast sq Gc theta body (calculate_center_of_mass t) acc =
          acc + ((bodiesM t).map (pair_contrib sq Gc body)).sum := by
  intro t
  induction t with
  | leaf x y w h ob tm cx cy =>
      intro hwf hm acc
      cases ob with
      | none =>
          simp only [calculate_center_of_mass, cfa_step_leaf_none, if_pos rfl]
          simp [bodiesM]
      | some lb =>
          simp only [calculate_center_of_mass, cfa_step_leaf_some]
          rw [show bodiesM (QuadTree.leaf x y w h (some lb) tm cx cy) = {lb} from rfl]
          rw [Multiset.map_singleton, Multiset.sum_singleton]
          by_cases hm0 : lb.mass = 0
          · rw [if_pos hm0, pair_contrib_zero_mass sq Gc body lb hm0, add_zero]
          · rw [if_neg hm0]
            by_cases hne : lb ≠ body
            · rw [← direct_step sq Gc body lb acc, if_pos hne, if_pos hne]
            · rw [if_neg hne]
              push_neg at hne
              subst hne
              rw [ast_internal_part_theta_nonpos sq Gc theta lb (fun a => a) _ acc htheta
                (by exact hwf.1) (by exact hwf.2.1)]
              rw [pair_contrib_self, add_zero]
  | node x y w h nw ne sw se tm cx cy ihnw ihne ihsw ihse =>
      intro hwf hm acc
      obtain ⟨hw, hh, r1, r2, r3, r4, w1, w2, w3, w4⟩ := hwf
      have hmnw : ∀ b ∈ bodiesM nw, 0 ≤ b.mass := fun b hb => hm b (by simp [bodiesM, hb])
      have hmne : ∀ b ∈ bodiesM ne, 0 ≤ b.mass := fun b hb => hm b (by simp [bodiesM, hb])
      have hmsw : ∀ b ∈ bodiesM sw, 0 ≤ b.mass := fun b hb => hm b (by simp [bodiesM, hb])
      have hmse : ∀ b ∈ bodiesM se, 0 ≤ b.mass := fun b hb => hm b (by simp [bodiesM, hb])
      have hbody : bodiesM (QuadTree.node x y w h nw ne sw se tm cx cy) =
          bodiesM nw + bodiesM ne + bodiesM sw + bodiesM se := rfl
      have hA := acc4_fst nw ne sw se hmnw hmne hmsw hmse
      simp only [calculate_center_of_mass]
      split
      case isTrue hpos =>
        rw [cfa_step_node, if_neg (ne_of_gt hpos)]
        rw [ast_internal_part_theta_nonpos sq Gc theta body _ _ acc htheta
          (by simpa using hw) (by simpa using hh)]
        rw [ihnw w1 hmnw, ihne w2 hmne, ihsw w3 hmsw, ihse w4 hmse]
        rw [hbody, sum_map_pair_contrib_add, sum_map_pair_contrib_add,
          sum_map_pair_contrib_add]
        abel
      case isFalse hneg =>
        have hz : (add_child_mass (add_child_mass (add_child_mass (add_child_mass
            ((0 : ℚ), (0 : ℚ), (0 : ℚ)) (calculate_center_of_mass nw))
            (calculate_center_of_mass ne)) (calculate_center_of_mass sw))
            (calculate_center_of_mass se)).1 = 0 := by
          have s1 := massSum_nonneg nw hmnw
          have s2 := massSum_nonneg ne hmne
          have s3 := massSum_nonneg sw hmsw
          have s4 := massSum_nonneg se hmse
          rw [hA]
          rw [hA] at hneg
          linarith [not_lt.mp hneg]
        rw [cfa_step_node, if_pos hz]
        have hzero : ∀ b ∈ bodiesM (QuadTree.node x y w h nw ne sw se tm cx cy),
            b.mass = 0 := by
          apply mass_eq_zero_of_sum_eq_zero _ hm
          rw [massSum_node]
          have := hA.symm.trans hz
          linarith
        rw [sum_pair_contrib_zero sq Gc body _ hzero, add_zero]

/-! ### Force evaluation: traced quadTree2.c variant -/

lemma cfq_step_leaf_none (sq : ℚ → ℚ) (Gc theta : ℚ) (body : Body)
    (x y w h tm cx cy : ℚ) (acc : ℚ × ℚ) :
    calculate_force_from_quadtree sq Gc theta body (.leaf x y w h none tm cx cy) acc =
      acc := by
  rw [calculate_force_from_quadtree]
  split <;> rfl

lemma cfq_step_leaf_some (sq : ℚ → ℚ) (Gc theta : ℚ) (body : Body)
    (x y w h : ℚ) (lb : Body) (tm cx cy : ℚ) (acc : ℚ × ℚ) :
    calculate_force_from_quadtree sq Gc theta body (.leaf x y w h (some lb) tm cx cy) acc =
      if tm = 0 then acc
      else
        if lb ≠ body then
          if sq ((lb.x - body.x) * (lb.x - body.x) + (lb.y - body.y) * (lb.y - body.y)) <
              EPSILON then acc
          else
            (acc.1 + Gc * body.mass * lb.mass /
                ((lb.x - body.x) * (lb.x - body.x) + (lb.y - body.y) * (lb.y - body.y)) *
                (lb.x - body.x) /
                sq ((lb.x - body.x) * (lb.x - body.x) + (lb.y - body.y) * (lb.y - body.y)),
             acc.2 + Gc * body.mass * lb.mass /
                ((lb.x - body.x) * (lb.x - body.x) + (lb.y - body.y) * (lb.y - body.y)) *
                (lb.y - body.y) /
                sq ((lb.x - body.x) * (lb.x - body.x) + (lb.y - body.y) * (lb.y - body.y)))
        else acc := rfl

lemma cfq_step_node (sq : ℚ → ℚ) (Gc theta : ℚ) (body : Body)
    (x y W H : ℚ) (nw ne sw se : QuadTree) (tm cx cy : ℚ) (acc : ℚ × ℚ) :
    calculate_force_from_quadtree sq Gc theta body (.node x y W H nw ne sw se tm cx cy) acc =
      if tm = 0 then acc
      else
        if 0 < sq ((cx - body.x) * (cx - body.x) + (cy - body.y) * (cy - body.y)) ∧
            max W H / sq ((cx - body.x) * (cx - body.x) + (cy - body.y) * (cy - body.y)) <
              theta then
          if sq ((cx - body.x) * (cx - body.x) + (cy - body.y) * (cy - body.y)) < EPSILON then
            acc
          else
            (acc.1 + Gc * body.mass * tm /
                (sq ((cx - body.x) * (cx - body.x) + (cy - body.y) * (cy - body.y)) *
                  sq ((cx - body.x) * (cx - body.x) + (cy - body.y) * (cy - body.y))) *
                (cx - body.x) /
                sq ((cx - body.x) * (cx - body.x) + (cy - body.y) * (cy - body.y)),
             acc.2 + Gc * body.mass * tm /
                (sq ((cx - body.x) * (cx - body.x) + (cy - body.y) * (cy - body.y)) *
                  sq ((cx - body.x) * (cx - body.x) + (cy - body.y) * (cy - body.y))) *
                (cy - body.y) /
                sq ((cx - body.x) * (cx - body.x) + (cy - body.y) * (cy - body.y)))
        else
          calculate_force_from_quadtree sq Gc theta body se
            (calculate_force_from_quadtree sq Gc theta body sw
              (calculate_force_from_quadtree sq Gc theta body ne
                (calculate_force_from_quadtree sq Gc theta body nw acc))) := rfl

lemma cft_step_leaf_none (sq : ℚ → ℚ) (Gc theta : ℚ) (body : Body)
    (x y w h tm cx cy : ℚ) (acc : ℚ × ℚ) :
    calculate_force_traced sq Gc theta body (.leaf x y w h none tm cx cy) acc = (acc, []) := by
  rw [calculate_force_traced]
  split <;> rfl

lemma cft_step_leaf_some (sq : ℚ → ℚ) (Gc theta : ℚ) (body : Body)
    (x y w h : ℚ) (lb : Body) (tm cx cy : ℚ) (acc : ℚ × ℚ) :
    calculate_force_traced sq Gc theta body (.leaf x y w h (some lb) tm cx cy) acc =
      if tm = 0 then (acc, [])
      else
        if lb ≠ body then
          if sq ((lb.x - body.x) * (lb.x - body.x) + (lb.y - body.y) * (lb.y - body.y)) <
              EPSILON then (acc, [])
          else
            ((acc.1 + Gc * body.mass * lb.mass /
                ((lb.x - body.x) * (lb.x - body.x) + (lb.y - body.y) * (lb.y - body.y)) *
                (lb.x - body.x) /
                sq ((lb.x - body.x) * (lb.x - body.x) + (lb.y - body.y) * (lb.y - body.y)),
              acc.2 + Gc * body.mass * lb.mass /
                ((lb.x - body.x) * (lb.x - body.x) + (lb.y - body.y) * (lb.y - body.y)) *
                (lb.y - body.y) /
                sq ((lb.x - body.x) * (lb.x - body.x) + (lb.y - body.y) * (lb.y - body.y))),
             [.ofLeaf lb
                (sq ((lb.x - body.x) * (lb.x - body.x) + (lb.y - body.y) * (lb.y - body.y)))])
        else (acc, []) := rfl

lemma cft_step_node (sq : ℚ → ℚ) (Gc theta : ℚ) (body : Body)
    (x y W H : ℚ) (nw ne sw se : QuadTree) (tm cx cy : ℚ) (acc : ℚ × ℚ) :
    calculate_force_traced sq Gc theta body (.node x y W H nw ne sw se tm cx cy) acc =
      if tm = 0 then (acc, [])
      else
        if 0 < sq ((cx - body.x) * (cx - body.x) + (cy - body.y) * (cy - body.y)) ∧
            max W H / sq ((cx - body.x) * (cx - body.x) + (cy - body.y) * (cy - body.y)) <
              theta then
          if sq ((cx - body.x) * (cx - body.x) + (cy - body.y) * (cy - body.y)) < EPSILON then
            (acc, [])
          else
            ((acc.1 + Gc * body.mass * tm /
                (sq ((cx - body.x) * (cx - body.x) + (cy - body.y) * (cy - body.y)) *
                  sq ((cx - body.x) * (cx - body.x) + (cy - body.y) * (cy - body.y))) *
                (cx - body.x) /
                sq ((cx - body.x) * (cx - body.x) + (cy - body.y) * (cy - body.y)),
              acc.2 + Gc * body.mass * tm /
                (sq ((cx - body.x) * (cx - body.x) + (cy - body.y) * (cy - body.y)) *
                  sq ((cx - body.x) * (cx - body.x) + (cy - body.y) * (cy - body.y))) *
                (cy - body.y) /
                sq ((cx - body.x) * (cx - body.x) + (cy - body.y) * (cy - body.y))),
             [.ofNode (.node x y W H nw ne sw se tm cx cy)
                (sq ((cx - body.x) * (cx - body.x) + (cy - body.y) * (cy - body.y)))])
        else
          ((calculate_force_traced sq Gc theta body se
              (calculate_force_traced sq Gc theta body sw
                (calculate_force_traced sq Gc theta body ne
                  (calculate_force_traced sq Gc theta body nw acc).1).1).1).1,
           (calculate_force_traced sq Gc theta body nw acc).2 ++
             (calculate_force_traced sq Gc theta body ne
               (calculate_force_traced sq Gc theta body nw acc).1).2 ++
             (calculate_force_traced sq Gc theta body sw
               (calculate_force_traced sq Gc theta body ne
                 (calculate_force_traced sq Gc theta body nw acc).1).1).2 ++
             (calculate_force_traced sq Gc theta body se
               (calculate_force_traced sq Gc theta body sw
                 (calculate_force_traced sq Gc theta body ne
                   (calculate_force_traced sq Gc theta body nw acc).1).1).1).2) := rfl

/-- The instrumented evaluator computes the same force as the plain
quadTree2.c evaluator. -/
lemma calculate_force_traced_fst (sq : ℚ → ℚ) (Gc theta : ℚ) (body : Body) :
    ∀ (t : QuadTree) (acc : ℚ × ℚ),
      (calculate_force_traced sq Gc theta body t acc).1 =
        calculate_force_from_quadtree sq Gc theta body t acc := by
  intro t
  induction t with
  | leaf x y w h ob tm cx cy =>
      intro acc
      cases ob with
      | none => rw [cft_step_leaf_none, cfq_step_leaf_none]
      | some lb =>
          rw [cft_step_leaf_some, cfq_step_leaf_some]
          split
          · rfl
          · split
            · split <;> rfl
            · rfl
  | node x y W H nw ne sw se tm cx cy ihnw ihne ihsw ihse =>
      intro acc
      rw [cft_step_node, cfq_step_node]
      split
      · rfl
      · split
        · split <;> rfl
        · simp only
          rw [ihnw, ihne, ihsw, ihse]

/-- Every contribution the quadTree2.c evaluator adds was computed at a
distance of at least `EPSILON`: closer sources are skipped and leave the
accumulators untouched. -/
lemma trace_eps (sq : ℚ → ℚ) (Gc theta : ℚ) (body : Body) :
    ∀ (t : QuadTree) (acc : ℚ × ℚ) (c : Contribution),
      c ∈ (calculate_force_traced sq Gc theta body t acc).2 → EPSILON ≤ c.dist := by
  intro t
  induction t with
  | leaf x y w h ob tm cx cy =>
      intro acc c hc
      cases ob with
      | none => rw [cft_step_leaf_none] at hc; simp at hc
      | some lb =>
          rw [cft_step_leaf_some] at hc
          split at hc
          · simp at hc
          · split at hc
            · split at hc
              case isTrue heps => simp at hc
              case isFalse heps =>
                  simp only [List.mem_singleton] at hc
                  subst hc
                  exact not_lt.mp heps
            · simp at hc
  | node x y W H nw ne sw se tm cx cy ihnw ihne ihsw ihse =>
      intro acc c hc
      rw [cft_step_node] at hc
      split at hc
      · simp at hc
      · split at hc
        · split at hc
          case isTrue heps => simp at hc
          case isFalse heps =>
              simp only [List.mem_singleton] at hc
              subst hc
              exact not_lt.mp heps
        · simp only [List.mem_append] at hc
          rcases hc with ((hc | hc) | hc) | hc
          · exact ihnw _ _ hc
          · exact ihne _ _ hc
          · exact ihsw _ _ hc
          · exact ihse _ _ hc

/-- No direct leaf contribution ever comes from the target body itself,
for any tree and any theta (the `node->body != body` pointer check). -/
lemma trace_leaf_ne (sq : ℚ → ℚ) (Gc theta : ℚ) (body : Body) :
    ∀ (t : QuadTree) (acc : ℚ × ℚ) (lb : Body) (d : ℚ),
      Contribution.ofLeaf lb d ∈ (calculate_force_traced sq Gc theta body t acc).2 →
        lb ≠ body := by
  intro t
  induction t with
  | leaf x y w h ob tm cx cy =>
      intro acc lb d hc
      cases ob with
      | none => rw [cft_step_leaf_none] at hc; simp at hc
      | some lb' =>
          rw [cft_step_leaf_some] at hc
          split at hc
          · simp at hc
          · split at hc
            case isTrue hne =>
              split at hc
              · simp at hc
              · simp only [List.mem_singleton, Contribution.ofLeaf.injEq] at hc
                rw [hc.1]
                exact hne
            case isFalse hne => simp at hc
  | node x y W H nw ne sw se tm cx cy ihnw ihne ihsw ihse =>
      intro acc lb d hc
      rw [cft_step_node] at hc
      split at hc
      · simp at hc
      · split at hc
        · split at hc
          · simp at hc
          · simp at hc
        · simp only [List.mem_append] at hc
          rcases hc with ((hc | hc) | hc) | hc
          · exact ihnw _ _ _ hc
          · exact ihne _ _ _ hc
          · exact ihsw _ _ _ hc
          · exact ihse _ _ _ hc

/-- Geometric core of the no-self-approximation argument: a node cannot
pass the opening test `s/d < theta` against a target inside its own
rectangle when `theta² ≤ 1/2` and the computed square root
under-approximates (`dist² ≤ dx²+dy²`), because the center of mass also
lies in the rectangle, bounding the true distance by the diagonal. -/
lemma approx_inside_contradiction
    (x y w h bx b_y cx cy dist theta : ℚ)
    (hw : 0 ≤ w) (hh : 0 ≤ h)
    (hcx1 : x ≤ cx) (hcx2 : cx < x + w) (hcy1 : y ≤ cy) (hcy2 : cy < y + h)
    (hbx1 : x ≤ bx) (hbx2 : bx < x + w) (hby1 : y ≤ b_y) (hby2 : b_y < y + h)
    (hdist : 0 < dist)
    (hsqle : dist * dist ≤ (cx - bx) * (cx - bx) + (cy - b_y) * (cy - b_y))
    (htheta0 : 0 ≤ theta) (htheta2 : theta * theta ≤ 1 / 2)
    (hlt : max w h / dist < theta) : False := by
  have hx2 : (cx - bx) * (cx - bx) < w * w := by nlinarith
  have hy2 : (cy - b_y) * (cy - b_y) < h * h := by nlinarith
  have hs0 : 0 ≤ max w h := le_trans hw (le_max_left w h)
  have hw2 : w * w ≤ max w h * max w h := mul_self_le_mul_self hw (le_max_left w h)
  have hh2 : h * h ≤ max w h * max w h := mul_self_le_mul_self hh (le_max_right w h)
  have h1 : max w h < theta * dist := (div_lt_iff hdist).mp hlt
  have h2 : max w h * max w h < (theta * dist) * (theta * dist) := mul_self_lt_mul_self hs0 h1
  have h2' : max w h * max w h < theta * theta * (dist * dist) := by nlinarith [h2]
  have h4 : theta * theta * (dist * dist) ≤
      theta * theta * ((cx - bx) * (cx - bx) + (cy - b_y) * (cy - b_y)) :=
    mul_le_mul_of_nonneg_left hsqle (mul_self_nonneg theta)
  have hDnn : 0 ≤ (cx - bx) * (cx - bx) + (cy - b_y) * (cy - b_y) :=
    le_trans (mul_self_nonneg dist) hsqle
  have h3 : theta * theta * ((cx - bx) * (cx - bx) + (cy - b_y) * (cy - b_y)) ≤
      (1 / 2) * ((cx - bx) * (cx - bx) + (cy - b_y) * (cy - b_y)) :=
    mul_le_mul_of_nonneg_right htheta2 hDnn
  linarith

/-- Amended no-self-force, approximation half: with an under-approximating
square root and `theta² ≤ 1/2` (covering the source's 0.5 and 0.7), no
approximated-node contribution on an aggregated well-formed tree with
non-negative masses comes from a node whose subtree contains the target. -/
lemma trace_node_no_self (sq : ℚ → ℚ) (Gc theta : ℚ) (body : Body)
    (hsq : ∀ z : ℚ, 0 ≤ z → sq z * sq z ≤ z)
    (htheta0 : 0 ≤ theta) (htheta2 : theta * theta ≤ 1 / 2) :
    ∀ t : QuadTree, WF t → (∀ b ∈ bodiesM t, 0 ≤ b.mass) →
      ∀ (acc : ℚ × ℚ) (nt : QuadTree) (d : ℚ),
        Contribution.ofNode nt d ∈
            (calculate_force_traced sq Gc theta body (calculate_center_of_mass t) acc).2 →
          body ∉ bodiesM nt := by
  intro t
  induction t with
  | leaf x y w h ob tm cx cy =>
      intro hwf hm acc nt d hc
      cases ob with
      | none =>
          simp only [calculate_center_of_mass] at hc
          rw [cft_step_leaf_none] at hc
          simp at hc
      | some lb =>
          simp only [calculate_center_of_mass] at hc
          rw [cft_step_leaf_some] at hc
          split at hc
          · simp at hc
          · split at hc
            · split at hc
              · simp at hc
              · simp at hc
            · simp at hc
  | node x y W H nw ne sw se tm cx cy ihnw ihne ihsw ihse =>
      intro hwf hm acc nt d hc
      have hcom := com_in_rect (.node x y W H nw ne sw se tm cx cy) hwf hm
      have hbodies := (ccm_struct (.node x y W H nw ne sw se tm cx cy)).2
      have hwfn := hwf
      obtain ⟨hw, hh, r1, r2, r3, r4, w1, w2, w3, w4⟩ := hwfn
      have hmnw : ∀ b ∈ bodiesM nw, 0 ≤ b.mass := fun b hb => hm b (by simp [bodiesM, hb])
      have hmne : ∀ b ∈ bodiesM ne, 0 ≤ b.mass := fun b hb => hm b (by simp [bodiesM, hb])
      have hmsw : ∀ b ∈ bodiesM sw, 0 ≤ b.mass := fun b hb => hm b (by simp [bodiesM, hb])
      have hmse : ∀ b ∈ bodiesM se, 0 ≤ b.mass := fun b hb => hm b (by simp [bodiesM, hb])
      simp only [calculate_center_of_mass] at hcom hbodies hc
      split at hc
      case isTrue hpos =>
        rw [if_pos hpos] at hcom hbodies
        rw [cft_step_node] at hc
        split at hc
        · simp at hc
        · split at hc
          case isTrue hcond =>
            split at hc
            · simp at hc
            case isFalse heps =>
              simp only [List.mem_singleton, Contribution.ofNode.injEq] at hc
              rw [hc.1]
              intro hbmem
              rw [hbodies] at hbmem
              have hbrect := body_in_rect_of_mem _ body hwf hbmem
              simp only [QuadTree.x_node, QuadTree.y_node, QuadTree.width_node,
                QuadTree.height_node] at hbrect
              have hcomIn := hcom (by simp [QuadTree.total_mass_node]; exact hpos)
              simp only [QuadTree.x_node, QuadTree.y_node, QuadTree.width_node,
                QuadTree.height_node, QuadTree.center_x_node, QuadTree.center_y_node] at hcomIn
              obtain ⟨hcond1, hcond2⟩ := hcond
              refine approx_inside_contradiction x y W H body.x body.y _ _ _ theta hw hh
                hcomIn.1 hcomIn.2.1 hcomIn.2.2.1 hcomIn.2.2.2
                hbrect.1 hbrect.2.1 hbrect.2.2.1 hbrect.2.2.2
                hcond1 (hsq _ (add_nonneg (mul_self_nonneg _) (mul_self_nonneg _))) htheta0 htheta2 hcond2
          case isFalse hcond =>
            simp only [List.mem_append] at hc
            rcases hc with ((hcm | hcm) | hcm) | hcm
            · exact ihnw w1 hmnw _ nt d hcm
            · exact ihne w2 hmne _ nt d hcm
            · exact ihsw w3 hmsw _ nt d hcm
            · exact ihse w4 hmse _ nt d hcm
      case isFalse hneg =>
        rw [if_neg hneg] at hcom hbodies
        rw [cft_step_node] at hc
        split at hc
        · simp at hc
        · split at hc
          case isTrue hcond =>
            split at hc
            · simp at hc
            case isFalse heps =>
              simp only [List.mem_singleton, Contribution.ofNode.injEq] at hc
              rw [hc.1]
              intro hbmem
              rw [hbodies] at hbmem
              have hbrect := body_in_rect_of_mem _ body hwf hbmem
              simp only [QuadTree.x_node, QuadTree.y_node, QuadTree.width_node,
                QuadTree.height_node] at hbrect
              -- zero-mass branch: the stored center is the geometric
              -- center, also inside the rectangle (width/height halved)
              have hcx1 : x ≤ x + W / 2 := by linarith
              have hcx2 : x + W / 2 < x + W ∨ W = 0 := by
                rcases lt_or_eq_of_le hw with hlt | heq
                · left; linarith
                · right; exact heq.symm
              obtain ⟨hcond1, hcond2⟩ := hcond
              rcases hcx2 with hcx2 | hW0
              · have hcy2 : y + H / 2 < y + H ∨ H = 0 := by
                  rcases lt_or_eq_of_le hh with hlt | heq
                  · left; linarith
                  · right; exact heq.symm
                rcases hcy2 with hcy2 | hH0
                · exact approx_inside_contradiction x y W H body.x body.y _ _ _ theta hw hh
                    hcx1 hcx2 (by linarith) hcy2
                    hbrect.1 hbrect.2.1 hbrect.2.2.1 hbrect.2.2.2
                    hcond1 (hsq _ (add_nonneg (mul_self_nonneg _) (mul_self_nonneg _))) htheta0 htheta2 hcond2
                · -- H = 0: the rectangle is empty in y, no body fits
                  rw [hH0] at hbrect
                  have := hbrect.2.2.1
                  have := hbrect.2.2.2
                  linarith
              · rw [hW0] at hbrect
                have := hbrect.1
                have := hbrect.2.1
                linarith
          case isFalse hcond =>
            simp only [List.mem_append] at hc
            rcases hc with ((hcm | hcm) | hcm) | hcm
            · exact ihnw w1 hmnw _ nt d hcm
            · exact ihne w2 hmne _ nt d hcm
            · exact ihsw w3 hmsw _ nt d hcm
            · exact ihse w4 hmse _ nt d hcm

/-! ### The two steppers (part_000 and solar.c) -/

lemma getD_set_self (l : List Body) (i : ℕ) (v : Body) (hi : i < l.length) :
    (l.set i v).getD i body0 = v := by
  simp [List.getD_eq_getElem?_getD, List.getElem?_set_self', hi]

lemma getD_set_ne (l : List Body) (i j : ℕ) (v : Body) (hij : j ≠ i) :
    (l.set i v).getD j body0 = l.getD j body0 := by
  simp [List.getD_eq_getElem?_getD, List.getElem?_set_ne (by omega : i ≠ j)]

lemma getD_set_oob (l : List Body) (i : ℕ) (v : Body) (hi : ¬ i < l.length) :
    l.set i v = l := List.set_eq_of_length_le (by omega)

lemma bhf_step_leaf_none (sq : ℚ → ℚ) (Gc : ℚ) (store : List Body) (planetId : ℕ)
    (x y w h tm cx cy : ℚ) (acc : ℚ × ℚ) :
    bh_calculate_force_live sq Gc store planetId (.leaf x y w h none tm cx cy) acc = acc := by
  rw [bh_calculate_force_live]
  split <;> rfl

lemma bhf_step_leaf_some (sq : ℚ → ℚ) (Gc : ℚ) (store : List Body) (planetId : ℕ)
    (x y w h : ℚ) (lb : Body) (tm cx cy : ℚ) (acc : ℚ × ℚ) :
    bh_calculate_force_live sq Gc store planetId (.leaf x y w h (some lb) tm cx cy) acc =
      if tm = 0 then acc
      else
        if lb.id ≠ planetId then
          if sq (((store.getD lb.id body0).x - (store.getD planetId body0).x) *
                ((store.getD lb.id body0).x - (store.getD planetId body0).x) +
              ((store.getD lb.id body0).y - (store.getD planetId body0).y) *
                ((store.getD lb.id body0).y - (store.getD planetId body0).y)) < EPSILON then
            acc
          else
            (acc.1 + Gc * (store.getD planetId body0).mass * (store.getD lb.id body0).mass /
                (((store.getD lb.id body0).x - (store.getD planetId body0).x) *
                  ((store.getD lb.id body0).x - (store.getD planetId body0).x) +
                 ((store.getD lb.id body0).y - (store.getD planetId body0).y) *
                  ((store.getD lb.id body0).y - (store.getD planetId body0).y)) *
                ((store.getD lb.id body0).x - (store.getD planetId body0).x) /
                sq (((store.getD lb.id body0).x - (store.getD planetId body0).x) *
                    ((store.getD lb.id body0).x - (store.getD planetId body0).x) +
                  ((store.getD lb.id body0).y - (store.getD planetId body0).y) *
                    ((store.getD lb.id body0).y - (store.getD planetId body0).y)),
             acc.2 + Gc * (store.getD planetId body0).mass * (store.getD lb.id body0).mass /
                (((store.getD lb.id body0).x - (store.getD planetId body0).x) *
                  ((store.getD lb.id body0).x - (store.getD planetId body0).x) +
                 ((store.getD lb.id body0).y - (store.getD planetId body0).y) *
                  ((store.getD lb.id body0).y - (store.getD planetId body0).y)) *
                ((store.getD lb.id body0).y - (store.getD planetId body0).y) /
                sq (((store.getD lb.id body0).x - (store.getD planetId body0).x) *
                    ((store.getD lb.id body0).x - (store.getD planetId body0).x) +
                  ((store.getD lb.id body0).y - (store.getD planetId body0).y) *
                    ((store.getD lb.id body0).y - (store.getD planetId body0).y)))
        else acc := rfl

lemma bhf_step_node (sq : ℚ → ℚ) (Gc : ℚ) (store : List Body) (planetId : ℕ)
    (x y W H : ℚ) (nw ne sw se : QuadTree) (tm cx cy : ℚ) (acc : ℚ × ℚ) :
    bh_calculate_force_live sq Gc store planetId (.node x y W H nw ne sw se tm cx cy) acc =
      if tm = 0 then acc
      else
        if 0 < sq ((cx - (store.getD planetId body0).x) * (cx - (store.getD planetId body0).x) +
              (cy - (store.getD planetId body0).y) * (cy - (store.getD planetId body0).y)) ∧
            max W H /
              sq ((cx - (store.getD planetId body0).x) * (cx - (store.getD planetId body0).x) +
                (cy - (store.getD planetId body0).y) * (cy - (store.getD planetId body0).y)) <
              THETA_bh then
          if sq ((cx - (store.getD planetId body0).x) * (cx - (store.getD planetId body0).x) +
              (cy - (store.getD planetId body0).y) * (cy - (store.getD planetId body0).y)) <
              EPSILON then acc
          else
            (acc.1 + Gc * (store.getD planetId body0).mass * tm /
                (sq ((cx - (store.getD planetId body0).x) * (cx - (store.getD planetId body0).x) +
                    (cy - (store.getD planetId body0).y) * (cy - (store.getD planetId body0).y)) *
                 sq ((cx - (store.getD planetId body0).x) * (cx - (store.getD planetId body0).x) +
                    (cy - (store.getD planetId body0).y) * (cy - (store.getD planetId body0).y))) *
                (cx - (store.getD planetId body0).x) /
                sq ((cx - (store.getD planetId body0).x) * (cx - (store.getD planetId body0).x) +
                  (cy - (store.getD planetId body0).y) * (cy - (store.getD planetId body0).y)),
             acc.2 + Gc * (store.getD planetId body0).mass * tm /
                (sq ((cx - (store.getD planetId body0).x) * (cx - (store.getD planetId body0).x) +
                    (cy - (store.getD planetId body0).y) * (cy - (store.getD planetId body0).y)) *
                 sq ((cx - (store.getD planetId body0).x) * (cx - (store.getD planetId body0).x) +
                    (cy - (store.getD planetId body0).y) * (cy - (store.getD planetId body0).y))) *
                (cy - (store.getD planetId body0).y) /
                sq ((cx - (store.getD planetId body0).x) * (cx - (store.getD planetId body0).x) +
                  (cy - (store.getD planetId body0).y) * (cy - (store.getD planetId body0).y)))
        else
          bh_calculate_force_live sq Gc store planetId se
            (bh_calculate_force_live sq Gc store planetId sw
              (bh_calculate_force_live sq Gc store planetId ne
                (bh_calculate_force_live sq Gc store planetId nw acc))) := rfl

/-- `bh_calculate_force` reads only positions and masses through the
store: two stores agreeing on `x`, `y`, `mass` at every index produce
identical forces. -/
lemma bh_force_live_congr (sq : ℚ → ℚ) (Gc : ℚ) (st1 st2 : List Body)
    (hagree : ∀ j : ℕ, (st1.getD j body0).x = (st2.getD j body0).x ∧
      (st1.getD j body0).y = (st2.getD j body0).y ∧
      (st1.getD j body0).mass = (st2.getD j body0).mass) (i : ℕ) :
    ∀ (t : QuadTree) (acc : ℚ × ℚ),
      bh_calculate_force_live sq Gc st1 i t acc = bh_calculate_force_live sq Gc st2 i t acc := by
  intro t
  induction t with
  | leaf x y w h ob tm cx cy =>
      intro acc
      cases ob with
      | none => rw [bhf_step_leaf_none, bhf_step_leaf_none]
      | some lb =>
          rw [bhf_step_leaf_some, bhf_step_leaf_some]
          rw [(hagree lb.id).1, (hagree lb.id).2.1, (hagree lb.id).2.2,
            (hagree i).1, (hagree i).2.1, (hagree i).2.2]
  | node x y W H nw ne sw se tm cx cy ihnw ihne ihsw ihse =>
      intro acc
      rw [bhf_step_node, bhf_step_node]
      rw [(hagree i).1, (hagree i).2.1, (hagree i).2.2]
      rw [ihnw, ihne, ihsw, ihse]

lemma bh_force_loop_order_cons (sq : ℚ → ℚ) (Gc : ℚ) (t : QuadTree) (i : ℕ)
    (order : List ℕ) (st : List Body) :
    bh_force_loop_order sq Gc t (i :: order) st =
      bh_force_loop_order sq Gc t order
        (st.set i
          (let f := bh_calculate_force_live sq Gc st i t (0, 0)
           let p := st.getD i body0
           { p with ax := f.1 / p.mass, ay := f.2 / p.mass })) := rfl

/-- part_000's force phase, for an arbitrary processing order: it never
touches positions, velocities, masses or identities; every processed
index ends with exactly the acceleration its snapshot force dictates,
computed against the *initial* store (order-independence); unprocessed
indices are untouched. -/
lemma bh_force_loop_spec (sq : ℚ → ℚ) (Gc : ℚ) (t : QuadTree) :
    ∀ (order : List ℕ) (st : List Body),
      (bh_force_loop_order sq Gc t order st).length = st.length ∧
      (∀ j : ℕ,
        ((bh_force_loop_order sq Gc t order st).getD j body0).x = (st.getD j body0).x ∧
        ((bh_force_loop_order sq Gc t order st).getD j body0).y = (st.getD j body0).y ∧
        ((bh_force_loop_order sq Gc t order st).getD j body0).vx = (st.getD j body0).vx ∧
        ((bh_force_loop_order sq Gc t order st).getD j body0).vy = (st.getD j body0).vy ∧
        ((bh_force_loop_order sq Gc t order st).getD j body0).mass = (st.getD j body0).mass ∧
        ((bh_force_loop_order sq Gc t order st).getD j body0).id = (st.getD j body0).id) ∧
      (∀ j ∈ order, j < st.length →
        ((bh_force_loop_order sq Gc t order st).getD j body0).ax =
          (bh_calculate_force_live sq Gc st j t (0, 0)).1 / (st.getD j body0).mass ∧
        ((bh_force_loop_order sq Gc t order st).getD j body0).ay =
          (bh_calculate_force_live sq Gc st j t (0, 0)).2 / (st.getD j body0).mass) ∧
      (∀ j : ℕ, j ∉ order →
        (bh_force_loop_order sq Gc t order st).getD j body0 = st.getD j body0) := by
  intro order
  induction order with
  | nil =>
      intro st
      exact ⟨rfl, fun j => ⟨rfl, rfl, rfl, rfl, rfl, rfl⟩, fun j hj => absurd hj (by simp),
        fun j _ => rfl⟩
  | cons i order ih =>
      intro st
      rw [bh_force_loop_order_cons]
      by_cases hi : i < st.length
      case neg =>
        rw [getD_set_oob st i _ hi]
        obtain ⟨ihlen, ihfields, ihproc, ihskip⟩ := ih st
        refine ⟨ihlen, ihfields, ?_, ?_⟩
        · intro j hj hjlen
          rcases List.mem_cons.mp hj with hj | hj
          · subst hj; exact absurd hjlen hi
          · exact ihproc j hj hjlen
        · intro j hj
          exact ihskip j (fun hc => hj (List.mem_cons_of_mem i hc))
      case pos =>
        obtain ⟨ihlen, ihfields, ihproc, ihskip⟩ :=
          ih (st.set i
            (let f := bh_calculate_force_live sq Gc st i t (0, 0)
             let p := st.getD i body0
             { p with ax := f.1 / p.mass, ay := f.2 / p.mass }))
        have hkin : ∀ j : ℕ,
            ((st.set i
              (let f := bh_calculate_force_live sq Gc st i t (0, 0)
               let p := st.getD i body0
               { p with ax := f.1 / p.mass, ay := f.2 / p.mass })).getD j body0).x =
                (st.getD j body0).x ∧
            ((st.set i
              (let f := bh_calculate_force_live sq Gc st i t (0, 0)
               let p := st.getD i body0
               { p with ax := f.1 / p.mass, ay := f.2 / p.mass })).getD j body0).y = (st.getD j body0).y ∧
            ((st.set i
              (let f := bh_calculate_force_live sq Gc st i t (0, 0)
               let p := st.getD i body0
               { p with ax := f.1 / p.mass, ay := f.2 / p.mass })).getD j body0).vx = (st.getD j body0).vx ∧
            ((st.set i
              (let f := bh_calculate_force_live sq Gc st i t (0, 0)
               let p := st.getD i body0
               { p with ax := f.1 / p.mass, ay := f.2 / p.mass })).getD j body0).vy = (st.getD j body0).vy ∧
            ((st.set i
              (let f := bh_calculate_force_live sq Gc st i t (0, 0)
               let p := st.getD i body0
               { p with ax := f.1 / p.mass, ay := f.2 / p.mass })).getD j body0).mass = (st.getD j body0).mass ∧
            ((st.set i
              (let f := bh_calculate_force_live sq Gc st i t (0, 0)
               let p := st.getD i body0
               { p with ax := f.1 / p.mass, ay := f.2 / p.mass })).getD j body0).id = (st.getD j body0).id := by
          intro j
          by_cases hj : j = i
          · subst hj
            rw [getD_set_self st j _ hi]
            exact ⟨rfl, rfl, rfl, rfl, rfl, rfl⟩
          · rw [getD_set_ne st i j _ hj]
            exact ⟨rfl, rfl, rfl, rfl, rfl, rfl⟩
        have hforce : ∀ j : ℕ,
            bh_calculate_force_live sq Gc
              (st.set i
                (let f := bh_calculate_force_live sq Gc st i t (0, 0)
                 let p := st.getD i body0
                 { p with ax := f.1 / p.mass, ay := f.2 / p.mass })) j t (0, 0) =
              bh_calculate_force_live sq Gc st j t (0, 0) := by
          intro j
          exact bh_force_live_congr sq Gc _ st
            (fun k => ⟨(hkin k).1, (hkin k).2.1, (hkin k).2.2.2.2.1⟩) j t (0, 0)
        refine ⟨ihlen.trans (by simp), ?_, ?_, ?_⟩
        · intro j
          obtain ⟨f1, f2, f3, f4, f5, f6⟩ := ihfields j
          obtain ⟨k1, k2, k3, k4, k5, k6⟩ := hkin j
          exact ⟨f1.trans k1, f2.trans k2, f3.trans k3, f4.trans k4, f5.trans k5, f6.trans k6⟩
        · intro j hj hjlen
          by_cases hjo : j ∈ order
          · have := ihproc j hjo (by simpa using hjlen)
            rw [hforce j] at this
            rw [this.1, this.2, (hkin j).2.2.2.2.1]
            exact ⟨rfl, rfl⟩
          · have hji : j = i := by
              rcases List.mem_cons.mp hj with hj' | hj'
              · exact hj'
              · exact absurd hj' hjo
            subst hji
            rw [ihskip j hjo, getD_set_self st j _ hi]
            exact ⟨rfl, rfl⟩
        · intro j hj
          have hji : ¬ j = i := fun hc => hj (hc ▸ List.mem_cons_self j order)
          rw [ihskip j (fun hc => hj (List.mem_cons_of_mem i hc)), getD_set_ne st i j _ hji]

/-! ### Bounds computation (part_000 stepper) -/

lemma foldl_min_le_init (f : Body → ℚ) : ∀ (l : List Body) (a : ℚ),
    l.foldl (fun m p => min m (f p)) a ≤ a := by
  intro l
  induction l with
  | nil => intro a; exact le_refl a
  | cons b l ihl =>
      intro a
      rw [List.foldl_cons]
      exact le_trans (ihl (min a (f b))) (min_le_left a (f b))

lemma foldl_min_le (f : Body → ℚ) : ∀ (l : List Body) (a : ℚ) (p : Body), p ∈ l →
    l.foldl (fun m p => min m (f p)) a ≤ f p := by
  intro l
  induction l with
  | nil => intro a p hp; simp at hp
  | cons b l ihl =>
      intro a p hp
      rw [List.foldl_cons]
      rcases List.mem_cons.mp hp with hp | hp
      · subst hp
        exact le_trans (foldl_min_le_init f l (min a (f p))) (min_le_right a (f p))
      · exact ihl (min a (f b)) p hp

lemma le_foldl_max_init (f : Body → ℚ) : ∀ (l : List Body) (a : ℚ),
    a ≤ l.foldl (fun m p => max m (f p)) a := by
  intro l
  induction l with
  | nil => intro a; exact le_refl a
  | cons b l ihl =>
      intro a
      rw [List.foldl_cons]
      exact le_trans (le_max_left a (f b)) (ihl (max a (f b)))

lemma le_foldl_max (f : Body → ℚ) : ∀ (l : List Body) (a : ℚ) (p : Body), p ∈ l →
    f p ≤ l.foldl (fun m p => max m (f p)) a := by
  intro l
  induction l with
  | nil => intro a p hp; simp at hp
  | cons b l ihl =>
      intro a p hp
      rw [List.foldl_cons]
      rcases List.mem_cons.mp hp with hp | hp
      · subst hp
        exact le_trans (le_max_right a (f p)) (le_foldl_max_init f l (max a (f p)))
      · exact ihl (max a (f b)) p hp

/-! ### Internal-node mass sums after aggregation -/

/-- After aggregation, every internal node's stored `total_mass` equals
the sum of its four children's stored `total_mass` (non-negative masses:
the `> 0` guards skip only exact-zero children). -/
lemma agg_internal_sum : ∀ t : QuadTree, (∀ b ∈ bodiesM t, 0 ≤ b.mass) →
    ∀ n ∈ allNodes (calculate_center_of_mass t),
      ∀ X Y W H cnw cne csw cse tm cx cy,
        n = QuadTree.node X Y W H cnw cne csw cse tm cx cy →
        tm = cnw.total_mass + cne.total_mass + csw.total_mass + cse.total_mass := by
  intro t
  induction t with
  | leaf x y w h ob tm cx cy =>
      intro hm n hn X Y W H cnw cne csw cse tm' cx' cy' hne
      cases ob <;>
        simp only [calculate_center_of_mass, allNodes, List.mem_singleton] at hn <;>
        subst hn <;>
        cases hne
  | node x y w h nw ne sw se tm cx cy ihnw ihne ihsw ihse =>
      intro hm n hn X Y W H cnw cne csw cse tm' cx' cy' hne
      have hmnw : ∀ b ∈ bodiesM nw, 0 ≤ b.mass := fun b hb => hm b (by simp [bodiesM, hb])
      have hmne : ∀ b ∈ bodiesM ne, 0 ≤ b.mass := fun b hb => hm b (by simp [bodiesM, hb])
      have hmsw : ∀ b ∈ bodiesM sw, 0 ≤ b.mass := fun b hb => hm b (by simp [bodiesM, hb])
      have hmse : ∀ b ∈ bodiesM se, 0 ≤ b.mass := fun b hb => hm b (by simp [bodiesM, hb])
      have hA := acc4_fst nw ne sw se hmnw hmne hmsw hmse
      simp only [calculate_center_of_mass] at hn
      split at hn <;>
      · simp only [allNodes, List.mem_cons, List.mem_append] at hn
        rcases hn with hn | (((hn | hn) | hn) | hn)
        · subst hne
          injection hn with e1 e2 e3 e4 e5 e6 e7 e8 e9 e10 e11
          subst e5
          subst e6
          subst e7
          subst e8
          rw [e9, hA]
          rw [total_mass_agg nw hmnw, total_mass_agg ne hmne, total_mass_agg sw hmsw,
            total_mass_agg se hmse]
        · exact ihnw hmnw n hn X Y W H cnw cne csw cse tm' cx' cy' hne
        · exact ihne hmne n hn X Y W H cnw cne csw cse tm' cx' cy' hne
        · exact ihsw hmsw n hn X Y W H cnw cne csw cse tm' cx' cy' hne
        · exact ihse hmse n hn X Y W H cnw cne csw cse tm' cx' cy' hne

/-! ### A computable under-approximating square root (for witnesses) -/

/-- Largest `k ≤ bound` with `k * k ≤ n` (structural scan). -/
def isqrtAux : ℕ → ℕ → ℕ
  | 0, _ => 0
  | k + 1, n => if (k + 1) * (k + 1) ≤ n then k + 1 else isqrtAux k n

/-- Integer square root under-approximation: the largest `k` with
`k * k ≤ n`. -/
def isqrt (n : ℕ) : ℕ := isqrtAux n n

lemma isqrtAux_sq_le : ∀ k n : ℕ, isqrtAux k n * isqrtAux k n ≤ n := by
  intro k
  induction k with
  | zero => intro n; simp [isqrtAux]
  | succ k ih =>
      intro n
      rw [isqrtAux]
      split
      case isTrue h => exact h
      case isFalse h => exact ih n

/-- Integer under-approximation of the square root, used to instantiate
the abstract `sq` parameter in concrete instances. -/
def ratSqrtLow (z : ℚ) : ℚ := ((isqrt ⌊z⌋.toNat : ℕ) : ℚ)

lemma ratSqrtLow_le (z : ℚ) (hz : 0 ≤ z) : ratSqrtLow z * ratSqrtLow z ≤ z := by
  unfold ratSqrtLow
  have h1 : isqrt ⌊z⌋.toNat * isqrt ⌊z⌋.toNat ≤ ⌊z⌋.toNat :=
    isqrtAux_sq_le ⌊z⌋.toNat ⌊z⌋.toNat
  have h2 : ((⌊z⌋.toNat : ℤ) : ℚ) ≤ z := by
    rw [Int.toNat_of_nonneg (Int.floor_nonneg.mpr hz)]
    exact Int.floor_le z
  calc ((isqrt ⌊z⌋.toNat : ℕ) : ℚ) * ((isqrt ⌊z⌋.toNat : ℕ) : ℚ)
      = ((isqrt ⌊z⌋.toNat * isqrt ⌊z⌋.toNat : ℕ) : ℚ) := by push_cast; ring
    _ ≤ ((⌊z⌋.toNat : ℕ) : ℚ) := by exact_mod_cast Nat.cast_le.mpr h1
    _ ≤ z := by exact_mod_cast h2

/-! ### Quadrant characterization -/

lemma quadrantOfPt_north_iff (x y w h px py : ℚ) :
    py < y + h / 2 ↔
      (quadrantOfPt x y w h px py = .nw ∨ quadrantOfPt x y w h px py = .ne) := by
  unfold quadrantOfPt
  by_cases hy : py < y + h / 2 <;> by_cases hx : px < x + w / 2 <;> simp [hy, hx]

lemma quadrantOfPt_west_iff (x y w h px py : ℚ) :
    px < x + w / 2 ↔
      (quadrantOfPt x y w h px py = .nw ∨ quadrantOfPt x y w h px py = .sw) := by
  unfold quadrantOfPt
  by_cases hy : py < y + h / 2 <;> by_cases hx : px < x + w / 2 <;> simp [hy, hx]

/-! ### Concrete sample data used by the witness instances -/

/-- Sample body at (-3, -4), unit mass. -/
def wBodyA : Body := ⟨-3, -4, 0, 0, 1, 0, 0, 0, 0, 0, 0⟩

/-- Sample body at (3, 4), unit mass. -/
def wBodyB : Body := ⟨3, 4, 0, 0, 1, 0, 0, 0, 0, 0, 1⟩

/-- Sample root region, the solar.c simulation square. -/
def wRoot : QuadTree := create_quadtree (-50) (-50) 100 100

/-- The tree built from the two sample bodies in the sample root. -/
def wTree : QuadTree := (buildTree 2 wRoot [wBodyA, wBodyB]).getD wRoot

/-- The sample tree after one mass-aggregation pass. -/
def wCCM : QuadTree := calculate_center_of_mass wTree

/-- Sample body closer than `EPSILON` to the origin. -/
def wBodyEps : Body := ⟨1 / 1000000000000, 0, 0, 0, 1, 0, 0, 0, 0, 0, 9⟩

/-! ### The claims -/

/-- Claim C1: after building a quadtree from bodies of positive mass
lying inside the root region and running the aggregation pass once,
every internal node's `total_mass` equals the sum of its four children's
`total_mass`, and the root's `total_mass` equals the sum of all
inserted bodies' masses (exactly, in the rational model). -/
theorem claim_C1_mass_conservation (fuel : ℕ) (x y w h : ℚ) (bs : List Body) (t : QuadTree)
    (hw : 0 ≤ w) (hh : 0 ≤ h)
    (hbuild : buildTree fuel (create_quadtree x y w h) bs = some t)
    (hmass : ∀ b ∈ bs, 0 < b.mass)
    (hin : ∀ b ∈ bs, in_rect x y w h b.x b.y) :
    (∀ n ∈ allNodes (calculate_center_of_mass t),
      ∀ X Y W H cnw cne csw cse tm cx cy,
        n = QuadTree.node X Y W H cnw cne csw cse tm cx cy →
        tm = cnw.total_mass + cne.total_mass + csw.total_mass + cse.total_mass) ∧
    (calculate_center_of_mass t).total_mass = (bs.map Body.mass).sum := by
  have hrect : ∀ b ∈ bs, in_rectT (rectOf (create_quadtree x y w h)) b.x b.y := by
    intro b hb
    simpa [rectOf, in_rectT, create_quadtree] using hin b hb
  obtain ⟨hre, hwf, hbm⟩ := buildTree_spec fuel bs _ t hbuild (WF_create x y w h hw hh) hrect
  have hbm' : bodiesM t = (bs : Multiset Body) := by
    rw [hbm, bodiesM_create, add_zero]
  have hm0 : ∀ b ∈ bodiesM t, 0 ≤ b.mass := by
    intro b hb
    rw [hbm', Multiset.mem_coe] at hb
    exact le_of_lt (hmass b hb)
  refine ⟨agg_internal_sum t hm0, ?_⟩
  rw [total_mass_agg t hm0]
  unfold massSum
  rw [hbm']
  simp

/-- Witness for C1 on the two-body sample tree. -/
theorem claim_C1_witness :
    (calculate_center_of_mass wTree).total_mass = ([wBodyA, wBodyB].map Body.mass).sum :=
  (claim_C1_mass_conservation 2 (-50) (-50) 100 100 [wBodyA, wBodyB] wTree
    (by norm_num) (by norm_num) (by decide) (by decide) (by decide)).2

/-- Claim C2: with the opening threshold `theta` set to 0 the
asteriod.c/solar.c evaluator never approximates, and on a built,
aggregated tree it returns exactly the direct all-pairs sum over the
inserted bodies, with the same epsilon-skip and self-skip rules. -/
theorem claim_C2_theta_zero_exact (sq : ℚ → ℚ) (Gc : ℚ) (fuel : ℕ) (x y w h : ℚ)
    (bs : List Body) (t : QuadTree) (body : Body)
    (hw : 0 ≤ w) (hh : 0 ≤ h)
    (hbuild : buildTree fuel (create_quadtree x y w h) bs = some t)
    (hin : ∀ b ∈ bs, in_rect x y w h b.x b.y)
    (hm : ∀ b ∈ bs, 0 ≤ b.mass) :
    calculate_force_from_quadtree_ast sq Gc 0 body (calculate_center_of_mass t) (0, 0) =
      direct_all_pairs_force sq Gc body bs := by
  have hrect : ∀ b ∈ bs, in_rectT (rectOf (create_quadtree x y w h)) b.x b.y := by
    intro b hb
    simpa [rectOf, in_rectT, create_quadtree] using hin b hb
  obtain ⟨hre, hwf, hbm⟩ := buildTree_spec fuel bs _ t hbuild (WF_create x y w h hw hh) hrect
  have hbm' : bodiesM t = (bs : Multiset Body) := by
    rw [hbm, bodiesM_create, add_zero]
  have hm0 : ∀ b ∈ bodiesM t, 0 ≤ b.mass := by
    intro b hb
    rw [hbm', Multiset.mem_coe] at hb
    exact hm b hb
  rw [cfa_theta_nonpos_eq sq Gc 0 body le_rfl t hwf hm0 (0, 0), direct_eq_sum, hbm']
  rw [Prod.mk_zero_zero, zero_add]
  simp

/-- Witness for C2 on the two-body sample tree with the
under-approximating integer square root. -/
theorem claim_C2_witness :
    calculate_force_from_quadtree_ast ratSqrtLow 1 0 wBodyA
        (calculate_center_of_mass wTree) (0, 0) =
      direct_all_pairs_force ratSqrtLow 1 wBodyA [wBodyA, wBodyB] :=
  claim_C2_theta_zero_exact ratSqrtLow 1 2 (-50) (-50) 100 100 [wBodyA, wBodyB] wTree wBodyA
    (by norm_num) (by norm_num) (by decide) (by decide) (by decide)

/-- Claim C3 (amended): the original claim — no self-contribution for
*every* value of `theta` — is false (see the counterexample: a large
`theta` approximates a node containing the target).  It holds whenever
`0 ≤ theta` and `theta² ≤ 1/2`, which covers both shipped values 0.5
and 0.7 (0.7² = 0.49), provided the square root under-approximates:
on a built, aggregated tree no recorded contribution comes from the
target body, neither from a leaf holding it nor from an approximated
node whose aggregate contains it. -/
theorem claim_C3_no_self_force (sq : ℚ → ℚ) (Gc theta : ℚ) (body : Body)
    (hsq : ∀ z : ℚ, 0 ≤ z → sq z * sq z ≤ z)
    (htheta0 : 0 ≤ theta) (htheta2 : theta * theta ≤ 1 / 2)
    (fuel : ℕ) (x y w h : ℚ) (bs : List Body) (t : QuadTree)
    (hw : 0 ≤ w) (hh : 0 ≤ h)
    (hbuild : buildTree fuel (create_quadtree x y w h) bs = some t)
    (hin : ∀ b ∈ bs, in_rect x y w h b.x b.y)
    (hm : ∀ b ∈ bs, 0 ≤ b.mass) (acc : ℚ × ℚ) :
    (∀ lb d, Contribution.ofLeaf lb d ∈
        (calculate_force_traced sq Gc theta body (calculate_center_of_mass t) acc).2 →
      lb ≠ body) ∧
    (∀ nt d, Contribution.ofNode nt d ∈
        (calculate_force_traced sq Gc theta body (calculate_center_of_mass t) acc).2 →
      body ∉ bodiesM nt) := by
  have hrect : ∀ b ∈ bs, in_rectT (rectOf (create_quadtree x y w h)) b.x b.y := by
    intro b hb
    simpa [rectOf, in_rectT, create_quadtree] using hin b hb
  obtain ⟨hre, hwf, hbm⟩ := buildTree_spec fuel bs _ t hbuild (WF_create x y w h hw hh) hrect
  have hm0 : ∀ b ∈ bodiesM t, 0 ≤ b.mass := by
    intro b hb
    rw [hbm, bodiesM_create, add_zero, Multiset.mem_coe] at hb
    exact hm b hb
  exact ⟨fun lb d hc => trace_leaf_ne sq Gc theta body _ acc lb d hc,
    fun nt d hc => trace_node_no_self sq Gc theta body hsq htheta0 htheta2 t hwf hm0 acc nt d hc⟩

/-- Witness for C3 at `theta = 1/2` on the two-body sample tree: the
recorded leaf contribution (the other body, at distance 10) is not the
target. -/
theorem claim_C3_witness :
    wBodyB ≠ wBodyA :=
  (claim_C3_no_self_force ratSqrtLow 1 (1 / 2) wBodyA (fun z hz => ratSqrtLow_le z hz)
    (by norm_num) (by norm_num) 2 (-50) (-50) 100 100 [wBodyA, wBodyB] wTree
    (by norm_num) (by norm_num) (by decide) (by decide) (by decide) (0, 0)).1
    wBodyB 10 (by decide)

/-- Counterexample to C3 as stated ("for every value of theta"): at
`theta = 25` the evaluator approximates the aggregated two-body root
itself (side 100, distance 5 from the target, 100/5 < 25), recording a
contribution from a node whose aggregated bodies include the target,
and that recorded trace belongs to the value the real evaluator
computes. -/
theorem claim_C3_counterexample :
    buildTree 2 wRoot [wBodyA, wBodyB] = some wTree ∧
    Contribution.ofNode wCCM 5 ∈
      (calculate_force_traced ratSqrtLow 1 25 wBodyA wCCM (0, 0)).2 ∧
    wBodyA ∈ bodiesM wCCM ∧
    (calculate_force_traced ratSqrtLow 1 25 wBodyA wCCM (0, 0)).1 =
      calculate_force_from_quadtree ratSqrtLow 1 25 wBodyA wCCM (0, 0) :=
  ⟨by decide, by decide, by decide,
    calculate_force_traced_fst ratSqrtLow 1 25 wBodyA wCCM (0, 0)⟩

/-- Claim C4 (amended): the original claim is false for solar.c, whose
loop updates each body inside the force loop through the shared live
array (see the counterexample).  It holds for part_000: the force phase
assigns every processed planet an acceleration computed from the force
evaluated against the start-of-tick snapshot store — an expression
independent of the processing order — and leaves every planet's
position, velocity and mass untouched until the integration phase. -/
theorem claim_C4_two_phase_forces (sq : ℚ → ℚ) (Gc : ℚ) (t : QuadTree)
    (order : List ℕ) (st : List Body) (j : ℕ) (hj : j ∈ order) (hlen : j < st.length) :
    ((bh_force_loop_order sq Gc t order st).getD j body0).ax =
      (bh_calculate_force_live sq Gc st j t (0, 0)).1 / (st.getD j body0).mass ∧
    ((bh_force_loop_order sq Gc t order st).getD j body0).ay =
      (bh_calculate_force_live sq Gc st j t (0, 0)).2 / (st.getD j body0).mass ∧
    (∀ i : ℕ,
      ((bh_force_loop_order sq Gc t order st).getD i body0).x = (st.getD i body0).x ∧
      ((bh_force_loop_order sq Gc t order st).getD i body0).y = (st.getD i body0).y ∧
      ((bh_force_loop_order sq Gc t order st).getD i body0).vx = (st.getD i body0).vx ∧
      ((bh_force_loop_order sq Gc t order st).getD i body0).vy = (st.getD i body0).vy ∧
      ((bh_force_loop_order sq Gc t order st).getD i body0).mass =
        (st.getD i body0).mass) := by
  obtain ⟨hlen', hfields, hproc, hskip⟩ := bh_force_loop_spec sq Gc t order st
  obtain ⟨hax, hay⟩ := hproc j hj hlen
  exact ⟨hax, hay, fun i => ⟨(hfields i).1, (hfields i).2.1, (hfields i).2.2.1,
    (hfields i).2.2.2.1, (hfields i).2.2.2.2.1⟩⟩

/-- Witness for C4 on the two-body sample: the second planet's stored
acceleration after the full force phase equals the snapshot force over
its mass. -/
theorem claim_C4_witness :
    ((bh_force_loop_order ratSqrtLow 1 wCCM [0, 1] (withIds [wBodyA, wBodyB])).getD 1
        body0).ax =
      (bh_calculate_force_live ratSqrtLow 1 (withIds [wBodyA, wBodyB]) 1 wCCM (0, 0)).1 /
        ((withIds [wBodyA, wBodyB]).getD 1 body0).mass :=
  (claim_C4_two_phase_forces ratSqrtLow 1 wCCM [0, 1] (withIds [wBodyA, wBodyB]) 1
    (by decide) (by decide)).1

/-- Counterexample to C4 as stated: one solar.c tick on the two sample
bodies stores on body 1 the force `-20/2997` (computed after body 0 was
already moved through the shared array), which differs from the force
`-3/500` evaluated against the start-of-tick snapshot store, so the
computed force does depend on the processing order. -/
theorem claim_C4_counterexample :
    (update_simulation_barnes_hut_solar ratSqrtLow 1 2 [wBodyA, wBodyB]).map
        (fun out => (out.getD 1 body0).fx) = some (-20 / 2997) ∧
    (calculate_force_live ratSqrtLow G_solar THETA_solar
        (withIds [wBodyA, wBodyB]) 1 wCCM (0, 0)).1 = -3 / 500 ∧
    ((-20 / 2997 : ℚ)) ≠ -3 / 500 :=
  ⟨by decide, by decide, by decide⟩

/-- Claim C5: building terminates (some fuel suffices) whenever the
inserted bodies occupy pairwise distinct positions, and insertion
diverges — runs out of any amount of fuel — as soon as a body arrives
at a leaf occupied by a body at numerically identical coordinates,
because subdivision never separates them and the source has no depth
guard. -/
theorem claim_C5_termination_dichotomy :
    (∀ (x y w h : ℚ) (bs : List Body), 0 ≤ w → 0 ≤ h →
      bs.Pairwise (fun a b => posOf a ≠ posOf b) →
      ∃ fuel t, buildTree fuel (create_quadtree x y w h) bs = some t) ∧
    (∀ (fuel : ℕ) (x y w h : ℚ) (eb b : Body) (tm cx cy : ℚ),
      eb.x = b.x → eb.y = b.y →
      is_in_bounds (QuadTree.leaf x y w h (some eb) tm cx cy) b →
      insert_body fuel (QuadTree.leaf x y w h (some eb) tm cx cy) b = none) := by
  constructor
  · intro x y w h bs hw hh hpair
    refine buildTree_terminates bs _ (WF_create x y w h hw hh) hpair ?_
    intro b hb
    simp [bodiesM_create]
  · exact insert_coincident_diverges

/-- Witness for C5: the two distinct sample bodies build, and inserting
a body on top of a coincident occupant returns `none` at fuel 5. -/
theorem claim_C5_witness :
    (∃ fuel t,
      buildTree fuel (create_quadtree (-50) (-50) 100 100) [wBodyA, wBodyB] = some t) ∧
    insert_body 5 (QuadTree.leaf (-4) (-5) 4 4 (some wBodyA) 0 0 0)
      { wBodyA with id := 7 } = none :=
  ⟨claim_C5_termination_dichotomy.1 (-50) (-50) 100 100 [wBodyA, wBodyB]
      (by norm_num) (by norm_num) (by decide),
   claim_C5_termination_dichotomy.2 5 (-4) (-5) 4 4 wBodyA { wBodyA with id := 7 } 0 0 0
      rfl rfl (by decide)⟩

/-- Claim C6 (amended): the part_000 stepper's bounds are always a
square; when at least two bodies differ in x or in y — so the 10%
padding is positive — the square contains every body's position in its
half-open bounds.  The original unconditional claim is false: with all
bodies coincident the padding is zero and the half-open region is empty
(see the counterexample). -/
theorem claim_C6_bounds_contain (ps : List Body) (p q : Body)
    (hp : p ∈ ps) (hq : q ∈ ps) (hpq : p.x ≠ q.x ∨ p.y ≠ q.y) :
    (create_quadtree (bh_bounds ps).1 (bh_bounds ps).2.1
        (bh_bounds ps).2.2 (bh_bounds ps).2.2).width =
      (create_quadtree (bh_bounds ps).1 (bh_bounds ps).2.1
        (bh_bounds ps).2.2 (bh_bounds ps).2.2).height ∧
    ∀ b ∈ ps, is_in_bounds (create_quadtree (bh_bounds ps).1 (bh_bounds ps).2.1
        (bh_bounds ps).2.2 (bh_bounds ps).2.2) b := by
  have hminx : ∀ b ∈ ps, ps.foldl (fun m p => min m p.x) (ps.headD body0).x ≤ b.x :=
    fun b hb => foldl_min_le (fun p => p.x) ps (ps.headD body0).x b hb
  have hmaxx : ∀ b ∈ ps, b.x ≤ ps.foldl (fun m p => max m p.x) (ps.headD body0).x :=
    fun b hb => le_foldl_max (fun p => p.x) ps (ps.headD body0).x b hb
  have hminy : ∀ b ∈ ps, ps.foldl (fun m p => min m p.y) (ps.headD body0).y ≤ b.y :=
    fun b hb => foldl_min_le (fun p => p.y) ps (ps.headD body0).y b hb
  have hmaxy : ∀ b ∈ ps, b.y ≤ ps.foldl (fun m p => max m p.y) (ps.headD body0).y :=
    fun b hb => le_foldl_max (fun p => p.y) ps (ps.headD body0).y b hb
  set mx := ps.foldl (fun m p => min m p.x) (ps.headD body0).x with hmx
  set Mx := ps.foldl (fun m p => max m p.x) (ps.headD body0).x with hMx
  set my := ps.foldl (fun m p => min m p.y) (ps.headD body0).y with hmy
  set My := ps.foldl (fun m p => max m p.y) (ps.headD body0).y with hMy
  have hspan : 0 < max (Mx - mx) (My - my) := by
    rcases hpq with hne | hne
    · have h1 := hminx p hp
      have h2 := hmaxx p hp
      have h3 := hminx q hq
      have h4 := hmaxx q hq
      rcases lt_or_gt_of_ne hne with hlt | hlt
      · exact lt_max_of_lt_left (by linarith)
      · exact lt_max_of_lt_left (by linarith)
    · have h1 := hminy p hp
      have h2 := hmaxy p hp
      have h3 := hminy q hq
      have h4 := hmaxy q hq
      rcases lt_or_gt_of_ne hne with hlt | hlt
      · exact lt_max_of_lt_right (by linarith)
      · exact lt_max_of_lt_right (by linarith)
  set P := max (Mx - mx) (My - my) * (1 / 10) with hP
  have hpad : 0 < P := by rw [hP]; positivity
  set D := max (Mx + P - (mx - P)) (My + P - (my - P)) with hD
  have hd1 : Mx + P - (mx - P) ≤ D := le_max_left _ _
  have hd2 : My + P - (my - P) ≤ D := le_max_right _ _
  have hbb : bh_bounds ps = (mx - P, my - P, D) := rfl
  refine ⟨rfl, ?_⟩
  intro b hb
  have hbx1 := hminx b hb
  have hbx2 := hmaxx b hb
  have hby1 := hminy b hb
  have hby2 := hmaxy b hb
  have hin : in_rect (mx - P) (my - P) D D b.x b.y :=
    ⟨by linarith, by linarith, by linarith, by linarith⟩
  show in_rect (bh_bounds ps).1 (bh_bounds ps).2.1 (bh_bounds ps).2.2 (bh_bounds ps).2.2
    b.x b.y
  rw [hbb]
  exact hin

/-- Witness for C6 on the two distinct sample bodies. -/
theorem claim_C6_witness :
    is_in_bounds (create_quadtree (bh_bounds [wBodyA, wBodyB]).1
      (bh_bounds [wBodyA, wBodyB]).2.1 (bh_bounds [wBodyA, wBodyB]).2.2
      (bh_bounds [wBodyA, wBodyB]).2.2) wBodyA :=
  (claim_C6_bounds_contain [wBodyA, wBodyB] wBodyA wBodyB (by decide) (by decide)
    (by decide)).2 wBodyA (by decide)

/-- Counterexample to C6 as stated: for the non-empty singleton
collection `[body0]` (all bodies coincident) the computed bounds have
zero padding and zero side, and the resulting half-open region contains
no point at all — not even the body it was computed from. -/
theorem claim_C6_counterexample :
    [body0] ≠ ([] : List Body) ∧
    ¬ is_in_bounds (create_quadtree (bh_bounds [body0]).1 (bh_bounds [body0]).2.1
        (bh_bounds [body0]).2.2 (bh_bounds [body0]).2.2) body0 :=
  ⟨by decide, by decide⟩

/-- Claim C7: every contribution the quadTree2.c evaluator records was
computed at distance at least `EPSILON` (closer sources are skipped,
leaving the accumulators unchanged); the recorded trace belongs to the
value the plain evaluator returns; and on a leaf whose occupant lies
closer than `EPSILON` the evaluator returns the accumulator unchanged.
In the exact rational model every result is a well-defined rational, so
no NaN/Inf can arise. -/
theorem claim_C7_softening_guard (sq : ℚ → ℚ) (Gc theta : ℚ) (body : Body) :
    (∀ (t : QuadTree) (acc : ℚ × ℚ) (c : Contribution),
        c ∈ (calculate_force_traced sq Gc theta body t acc).2 → EPSILON ≤ c.dist) ∧
    (∀ (t : QuadTree) (acc : ℚ × ℚ),
        (calculate_force_traced sq Gc theta body t acc).1 =
          calculate_force_from_quadtree sq Gc theta body t acc) ∧
    (∀ (x y w h : ℚ) (lb : Body) (tm cx cy : ℚ) (acc : ℚ × ℚ),
        sq ((lb.x - body.x) * (lb.x - body.x) + (lb.y - body.y) * (lb.y - body.y)) <
          EPSILON →
        calculate_force_from_quadtree sq Gc theta body
          (QuadTree.leaf x y w h (some lb) tm cx cy) acc = acc) := by
  refine ⟨trace_eps sq Gc theta body, calculate_force_traced_fst sq Gc theta body, ?_⟩
  intro x y w h lb tm cx cy acc hclose
  rw [cfq_step_leaf_some]
  by_cases htm : tm = 0
  · rw [if_pos htm]
  · rw [if_neg htm]
    by_cases hlb : lb ≠ body
    · rw [if_pos hlb, if_pos hclose]
    · rw [if_neg hlb]

/-- Witness for C7: a leaf body within `EPSILON` of the target leaves
the accumulator untouched. -/
theorem claim_C7_witness :
    calculate_force_from_quadtree ratSqrtLow 1 (1 / 2) body0
      (QuadTree.leaf 0 0 1 1 (some wBodyEps) 1 0 0) (3, 4) = (3, 4) :=
  (claim_C7_softening_guard ratSqrtLow 1 (1 / 2) body0).2.2 0 0 1 1 wBodyEps 1 0 0 (3, 4)
    (by decide)

/-- Claim C8: the integration step is semi-implicit Euler: velocity is
updated first from `force/mass · dt`, and the position update then uses
the already-updated velocity; the solar.c variant additionally stores the
force in the body's logging fields. -/
theorem claim_C8_semi_implicit_euler (b : Body) (fx fy dt : ℚ) (hm : 0 < b.mass) :
    (update_body b fx fy dt).vx = b.vx + fx / b.mass * dt ∧
    (update_body b fx fy dt).vy = b.vy + fy / b.mass * dt ∧
    (update_body b fx fy dt).x = b.x + (update_body b fx fy dt).vx * dt ∧
    (update_body b fx fy dt).y = b.y + (update_body b fx fy dt).vy * dt ∧
    update_body_solar b fx fy dt = { update_body b fx fy dt with fx := fx, fy := fy } :=
  ⟨rfl, rfl, rfl, rfl, rfl⟩

/-- Witness for C8 at a concrete body and timestep. -/
theorem claim_C8_witness :
    (update_body wBodyA 2 3 (1 / 2)).x =
      wBodyA.x + (update_body wBodyA 2 3 (1 / 2)).vx * (1 / 2) :=
  (claim_C8_semi_implicit_euler wBodyA 2 3 (1 / 2) (by decide)).2.2.1

/-- Claim C9: for a body inside a node's half-open bounds, `get_quadrant`
selects the unique child quadrant containing it: the four half-open child
rectangles partition the parent (no double-counting, no gaps); y below
the midpoint means north, x below the midpoint means west, and ties
resolve to the south/east side since the comparisons are strict. -/
theorem claim_C9_quadrant_selection (t : QuadTree) (b : Body) (hb : is_in_bounds t b) :
    in_rectT (childRect t.x t.y t.width t.height (quadrantOf t b)) b.x b.y ∧
    (∀ q : Quadrant, in_rectT (childRect t.x t.y t.width t.height q) b.x b.y →
      q = quadrantOf t b) ∧
    (b.y < t.y + t.height / 2 ↔ (quadrantOf t b = .nw ∨ quadrantOf t b = .ne)) ∧
    (b.x < t.x + t.width / 2 ↔ (quadrantOf t b = .nw ∨ quadrantOf t b = .sw)) := by
  refine ⟨in_rect_childRect t.x t.y t.width t.height b.x b.y hb, ?_, ?_, ?_⟩
  · intro q hq
    exact (quadrant_unique t.x t.y t.width t.height b.x b.y q hq).symm
  · exact quadrantOfPt_north_iff t.x t.y t.width t.height b.x b.y
  · exact quadrantOfPt_west_iff t.x t.y t.width t.height b.x b.y

/-- Witness for C9: a body on the exact midpoint of the sample root goes
south-east. -/
theorem claim_C9_witness :
    in_rectT (childRect wRoot.x wRoot.y wRoot.width wRoot.height
      (quadrantOf wRoot ⟨0, 0, 0, 0, 1, 0, 0, 0, 0, 0, 2⟩)) 0 0 :=
  (claim_C9_quadrant_selection wRoot ⟨0, 0, 0, 0, 1, 0, 0, 0, 0, 0, 2⟩ (by decide)).1

/-- Claim C10: inserting a body that lies outside a node's bounds
returns immediately (a plain `void` return, no error signalled) and
leaves the tree completely unchanged, so the body ends up in no leaf and
no aggregate. -/
theorem claim_C10_out_of_bounds_insert_noop (fuel : ℕ) (t : QuadTree) (b : Body)
    (hb : ¬ is_in_bounds t b) :
    insert_body (fuel + 1) t b = some t := by
  cases t with
  | leaf x y w h ob tm cx cy =>
      cases ob with
      | none => rw [insert_body_succ_leaf_none, if_pos hb]
      | some eb => rw [insert_body_succ_leaf_some, if_pos hb]
  | node x y w h nw ne sw se tm cx cy => rw [insert_body_succ_node, if_pos hb]

/-- Witness for C10 at a body far outside the sample root. -/
theorem claim_C10_witness :
    insert_body (0 + 1) wRoot ⟨999, 0, 0, 0, 1, 0, 0, 0, 0, 0, 3⟩ = some wRoot :=
  claim_C10_out_of_bounds_insert_noop 0 wRoot ⟨999, 0, 0, 0, 1, 0, 0, 0, 0, 0, 3⟩ (by decide)
